import Mathlib

/-!
Verification of the opnsense-openapi heuristic inference engine.

This file shallowly embeds the Python sources of the repository
(`opnsense_api` / `opnsense_openapi`) in Lean 4 and proves properties of
the embedded functions.  Strings are modelled as `List Char`; Python
regular-expression scans used by the sources are modelled by explicit,
deterministic scanners that mirror the behaviour of the concrete patterns
appearing in the code (all of those patterns are backtracking-free up to
the one documented whitespace corner case, which the scanners reproduce).
JSON values (Python dicts produced and consumed by the generators) are
modelled by the inductive type `J`; Python dicts are insertion-ordered
association lists.  Python `float` values are modelled exactly as
rationals (`PyFloat`); no claim below depends on IEEE rounding.
-/

namespace OpnSense

/-- Convert a string literal to the character-list representation used
throughout the embedding. -/
def str (s : String) : List Char := s.toList

/-- Single-quote character (used to build PHP-style quoted tokens). -/
def sq : Char := '\''

/-- Left and right brace characters. -/
def lbrace : Char := '\x7b'

/-- Right brace character. -/
def rbrace : Char := '\x7d'

/-- ASCII whitespace, matching Python's notion of whitespace for `str.strip`,
`str.split` and the regex class backslash-s on the ASCII inputs handled here. -/
def isWS (c : Char) : Bool :=
  c = ' ' || c = '\t' || c = '\n' || c = '\r' || c = '\x0b' || c = '\x0c'

/-- ASCII word character, matching the regex class backslash-w on the ASCII
inputs handled here. -/
def isWordChar (c : Char) : Bool :=
  c.isAlphanum || c = '_'

/-- Python `str.strip()` (ASCII whitespace). -/
def pyStrip (l : List Char) : List Char :=
  ((l.dropWhile isWS).reverse.dropWhile isWS).reverse

/-- Python `str.lower()` for the ASCII strings handled here. -/
def pyLower (s : String) : String :=
  String.mk (s.toList.map Char.toLower)

/-- Python `str.upper()` for the ASCII strings handled here. -/
def pyUpper (s : String) : String :=
  String.mk (s.toList.map Char.toUpper)

/-- Python substring test `needle in hay` on character lists. -/
def infixOf (needle : List Char) : List Char → Bool
  | [] => needle.isEmpty
  | c :: t => needle.isPrefixOf (c :: t) || infixOf needle t

/-- Python substring test on `String`s. -/
def infixOfStr (needle hay : String) : Bool :=
  infixOf needle.toList hay.toList

/-- Python `str.split(sep)` for a single-character separator. -/
def splitOnChar (c : Char) : List Char → List (List Char)
  | [] => [[]]
  | x :: t =>
    let r := splitOnChar c t
    if x = c then [] :: r
    else
      match r with
      | [] => [[x]]
      | h :: t2 => (x :: h) :: t2

/-- Python set() deduplication of a string list (keeps first occurrences;
only membership, emptiness and the sorted image of the result are ever
used, matching the unordered Python set). -/
def pyDedup : List String → List String
  | [] => []
  | x :: t => if (pyDedup t).contains x then pyDedup t else x :: pyDedup t

/-- Lexicographic code-point comparison of character lists; this is the
order Python uses to compare strings. -/
def charsLE : List Char → List Char → Bool
  | [], _ => true
  | _ :: _, [] => false
  | a :: as, b :: bs =>
    if a.val < b.val then true
    else if b.val < a.val then false
    else charsLE as bs

/-- Python string comparison used by `sorted` on strings. -/
def pyStrLE (a b : String) : Bool := charsLE a.toList b.toList

/-- Python `sorted` on a list of strings. -/
def pySortedStrings (l : List String) : List String :=
  List.insertionSort (fun a b => pyStrLE a b = true) l

/-- Python `sorted(set(l))` for string lists. -/
def pySortedSet (l : List String) : List String :=
  pySortedStrings (pyDedup l)

/-- Python `int(s)`: optional surrounding whitespace, optional sign, then a
digit run with single underscores allowed between digits. -/
def digitRunRest : List Char → Option (List Char)
  | [] => some []
  | ['_'] => none
  | '_' :: c :: t => if c.isDigit then (digitRunRest t).map (fun r => c :: r) else none
  | c :: t => if c.isDigit then (digitRunRest t).map (fun r => c :: r) else none

/-- Digit run with underscores: returns the digits with underscores removed
when the whole list is a valid run, and `none` otherwise. -/
def digitsU : List Char → Option (List Char)
  | [] => none
  | c :: t => if c.isDigit then (digitRunRest t).map (fun r => c :: r) else none

/-- Numeric value of a list of decimal digits. -/
def natOfDigits (l : List Char) : Nat :=
  l.foldl (fun acc c => acc * 10 + (c.toNat - '0'.toNat)) 0

/-- Python `int(s)` on the ASCII strings handled here; `none` models a
`ValueError`. -/
def pyInt? (l : List Char) : Option Int :=
  let s := pyStrip l
  match s with
  | '+' :: r => (digitsU r).map (fun d => (natOfDigits d : Int))
  | '-' :: r => (digitsU r).map (fun d => -(natOfDigits d : Int))
  | r => (digitsU r).map (fun d => (natOfDigits d : Int))

/-- Result of Python `float(s)`: finite values are modelled exactly as
rationals (the decimal value denoted by the literal); the special values
`inf`/`nan` are kept symbolic. -/
inductive PyFloat where
  | finite (q : Rat)
  | inf (neg : Bool)
  | nan
  deriving DecidableEq, Repr

/-- Take a maximal run of digits-or-underscores from the front. -/
def takeDigitsU (l : List Char) : List Char × List Char :=
  (l.takeWhile (fun c => c.isDigit || c = '_'), l.dropWhile (fun c => c.isDigit || c = '_'))

/-- Parse the exponent-free mantissa `digits [. digits]` of a Python float
literal; returns (numerator digits, fractional length). -/
def pyFloatMantissa? (l : List Char) : Option (List Char × Nat × List Char) :=
  let (ipRaw, r1) := takeDigitsU l
  match r1 with
  | '.' :: r2 =>
    let (fpRaw, r3) := takeDigitsU r2
    if ipRaw.isEmpty && fpRaw.isEmpty then none
    else if ipRaw.isEmpty then
      (digitsU fpRaw).map (fun fd => (fd, fd.length, r3))
    else if fpRaw.isEmpty then
      (digitsU ipRaw).map (fun id => (id, 0, r3))
    else
      match digitsU ipRaw, digitsU fpRaw with
      | some id, some fd => some (id ++ fd, fd.length, r3)
      | _, _ => none
  | _ =>
    if ipRaw.isEmpty then none
    else (digitsU ipRaw).map (fun id => (id, 0, r1))

/-- Integer power of ten as a rational. -/
def tenPow (e : Int) : Rat :=
  if 0 ≤ e then ((10 : Rat) ^ e.toNat) else 1 / ((10 : Rat) ^ (-e).toNat)

/-- Python `float(s)` on the ASCII strings handled here; `none` models a
`ValueError`. -/
def pyFloat? (l : List Char) : Option PyFloat :=
  let s := pyStrip l
  let (neg, r0) :=
    match s with
    | '+' :: r => (false, r)
    | '-' :: r => (true, r)
    | r => (false, r)
  let low := r0.map Char.toLower
  if low = str "inf" || low = str "infinity" then some (PyFloat.inf neg)
  else if low = str "nan" then some PyFloat.nan
  else
    match pyFloatMantissa? r0 with
    | none => none
    | some (digits, fracLen, rest) =>
      let expPart : Option Int :=
        match rest with
        | [] => some 0
        | e :: r1 =>
          if e = 'e' || e = 'E' then
            match r1 with
            | '+' :: r2 => (digitsU r2).map (fun d => (natOfDigits d : Int))
            | '-' :: r2 => (digitsU r2).map (fun d => -(natOfDigits d : Int))
            | r2 => (digitsU r2).map (fun d => (natOfDigits d : Int))
          else none
      match expPart with
      | none => none
      | some e =>
        let q : Rat := (natOfDigits digits : Rat) * tenPow (e - (fracLen : Int))
        some (PyFloat.finite (if neg then -q else q))

/-- JSON values (the shape of the Python dicts/lists the generators build).
Objects are insertion-ordered association lists, like Python dicts. -/
inductive J where
  | null
  | b (v : Bool)
  | i (n : Int)
  | f (v : PyFloat)
  | s (v : String)
  | arr (xs : List J)
  | obj (kvs : List (String × J))

mutual

/-- Structural boolean equality on JSON values. -/
def J.beq (x y : J) : Bool :=
  match x, y with
  | .null, .null => true
  | .b a, .b c => a == c
  | .i a, .i c => a == c
  | .f a, .f c => a == c
  | .s a, .s c => a == c
  | .arr a, .arr c => J.beqList a c
  | .obj a, .obj c => J.beqKvs a c
  | _, _ => false

/-- Boolean equality on JSON arrays. -/
def J.beqList (x y : List J) : Bool :=
  match x, y with
  | [], [] => true
  | a :: at2, c :: ct2 => J.beq a c && J.beqList at2 ct2
  | _, _ => false

/-- Boolean equality on JSON objects. -/
def J.beqKvs (x y : List (String × J)) : Bool :=
  match x, y with
  | [], [] => true
  | (ka, va) :: at2, (kc, vc) :: ct2 => ka == kc && J.beq va vc && J.beqKvs at2 ct2
  | _, _ => false

end

instance : BEq J := ⟨J.beq⟩

/-- Python truthiness of a JSON value. -/
def pyTruthy : J → Bool
  | .null => false
  | .b v => v
  | .i n => n != 0
  | .f v => v != PyFloat.finite 0
  | .s v => v ≠ ""
  | .arr xs => !xs.isEmpty
  | .obj kvs => !kvs.isEmpty

/-- Python dict lookup on an insertion-ordered association list. -/
def getKey : List (String × J) → String → Option J
  | [], _ => none
  | (k, v) :: t, key => if k = key then some v else getKey t key

/-- Python dict key-membership test. -/
def hasKey (kvs : List (String × J)) (key : String) : Bool :=
  (getKey kvs key).isSome

/-- Python dict assignment `d[k] = v`: update in place if present
(keeping position), else append. -/
def setKey : List (String × J) → String → J → List (String × J)
  | [], key, v => [(key, v)]
  | (k, w) :: t, key, v => if k = key then (key, v) :: t else (k, w) :: setKey t key v

/-- Python `schema.get(k)` for a JSON value known to be a dict (all call
sites in the embedded sources apply it to dicts only). -/
def jGet (j : J) (k : String) : Option J :=
  match j with
  | .obj kvs => getKey kvs k
  | _ => none

/-- Extract the string elements of a JSON array value (enum and required
lists in the embedded sources always hold strings). -/
def jStrList (o : Option J) : List String :=
  match o with
  | some (.arr xs) => xs.filterMap (fun x => match x with | .s v => some v | _ => none)
  | _ => []

/-- Extract the key-value list of a JSON object value (the `properties`
values in the embedded sources are always dicts). -/
def jObjKvs (o : Option J) : List (String × J) :=
  match o with
  | some (.obj kvs) => kvs
  | _ => []

end OpnSense

namespace OpnSense

/-! ### Model definition parser (`opnsense_api/parser/model_parser.py`) -/

/-- A parsed model field (`ModelField` dataclass). -/
structure ModelField where
  name : String
  fieldType : String
  required : Bool
  default : Option String
  options : List (String × String)
  multiple : Bool

/-- A parsed model definition (`ModelDefinition` dataclass); `fields` maps a
container name to the ordered fields directly inside it. -/
structure ModelDefinition where
  name : String
  module : String
  mount : String
  description : String
  fields : List (String × List ModelField)

/-- `ModelParser.FIELD_TYPE_MAP`. -/
def FIELD_TYPE_MAP : List (String × String) :=
  [("BooleanField", "boolean"),
   ("IntegerField", "integer"),
   ("NumericField", "number"),
   ("TextField", "string"),
   ("DescriptionField", "string"),
   ("EmailField", "string"),
   ("HostnameField", "string"),
   ("NetworkField", "string"),
   ("PortField", "string"),
   ("UrlField", "string"),
   ("OptionField", "string"),
   ("CSVListField", "string"),
   ("InterfaceField", "string"),
   ("ModelRelationField", "string"),
   ("UniqueIdField", "string"),
   ("CertificateField", "string"),
   ("AuthGroupField", "string"),
   ("AuthenticationServerField", "string")]

/-- Association-list lookup (Python `dict.get`). -/
def lookupStr : List (String × String) → String → Option String
  | [], _ => none
  | (k, v) :: t, key => if k = key then some v else lookupStr t key

/-- `ModelParser._convert_default_value`: turn a raw default string into the
schema's native type; never raises (parse failures fall back to the raw
string). -/
def convertDefaultValue (defaultStr : String) (jsonType : String) : J :=
  if jsonType = "boolean" then
    J.b (["1", "y", "yes", "true"].contains (pyLower defaultStr))
  else if jsonType = "integer" then
    match pyInt? defaultStr.toList with
    | some n => J.i n
    | none => J.s defaultStr
  else if jsonType = "number" then
    match pyFloat? defaultStr.toList with
    | some q => J.f q
    | none => J.s defaultStr
  else
    J.s defaultStr

/-- The per-field body of `ModelParser.to_json_schema`: build the JSON-schema
property for one model field. -/
def toJsonSchemaProp (f : ModelField) : J :=
  let jsonType := (lookupStr FIELD_TYPE_MAP f.fieldType).getD "string"
  let prop : List (String × J) := [("type", J.s jsonType)]
  let prop :=
    if !f.options.isEmpty then
      let enumValues := f.options.map (fun o => o.1)
      let enumValues :=
        match f.default with
        | some d => if !(enumValues.contains d) then enumValues ++ [d] else enumValues
        | none => enumValues
      setKey prop "enum" (J.arr (enumValues.map J.s))
    else prop
  let prop :=
    match f.default with
    | some d => setKey prop "default" (convertDefaultValue d jsonType)
    | none => prop
  if f.multiple then
    J.obj [("type", J.s "array"), ("items", J.obj prop)]
  else
    J.obj prop

/-- Association-list lookup for the container map of a model definition. -/
def lookupFields : List (String × List ModelField) → String → Option (List ModelField)
  | [], _ => none
  | (k, v) :: t, key => if k = key then some v else lookupFields t key

/-- `ModelParser.to_json_schema`: JSON-schema projection of one container of
a model definition.  An unknown container yields a bare object schema. -/
def toJsonSchema (model : ModelDefinition) (container : String) : J :=
  match lookupFields model.fields container with
  | none => J.obj [("type", J.s "object")]
  | some fs =>
    let props := fs.foldl (fun acc f => setKey acc f.name (toJsonSchemaProp f)) []
    let required := fs.foldl (fun acc f => if f.required then acc ++ [f.name] else acc) []
    J.obj ([("type", J.s "object"), ("properties", J.obj props)] ++
      (if required.isEmpty then [] else [("required", J.arr (required.map J.s))]))

/-! ### OpenAPI generator (`opnsense_api/generator/openapi_generator.py`) -/

/-- XML elements as parsed by ElementTree: tag, attributes, text, children. -/
inductive XmlEl where
  | mk (tag : String) (attrib : List (String × String)) (text : Option String)
       (children : List XmlEl)

/-- Tag of an XML element. -/
def XmlEl.tag : XmlEl → String
  | .mk t _ _ _ => t

/-- Attribute map of an XML element. -/
def XmlEl.attrib : XmlEl → List (String × String)
  | .mk _ a _ _ => a

/-- Text content of an XML element. -/
def XmlEl.text : XmlEl → Option String
  | .mk _ _ t _ => t

/-- Children of an XML element. -/
def XmlEl.children : XmlEl → List XmlEl
  | .mk _ _ _ c => c

/-- ElementTree `elem.find(tag)`: first direct child with the tag. -/
def XmlEl.findChild (e : XmlEl) (tag : String) : Option XmlEl :=
  e.children.find? (fun c => c.tag == tag)

/-- Python `str.lstrip(".\\/")` used for type-token cleanup. -/
def lstripRel (s : String) : String :=
  String.mk (s.toList.dropWhile (fun c => c = '.' || c = '\\' || c = '/'))

/-- The module-level `TYPE_MAP` of the generator. -/
def TYPE_MAP : List (String × J) :=
  [("IntegerField", J.obj [("type", J.s "integer")]),
   ("TextField", J.obj [("type", J.s "string")]),
   ("BooleanField", J.obj [("type", J.s "string"), ("enum", J.arr [J.s "0", J.s "1"]),
     ("description", J.s "Boolean (0=false, 1=true)")]),
   ("NetworkField", J.obj [("type", J.s "string"), ("format", J.s "ipv4")]),
   ("OptionField", J.obj [("type", J.s "string"), ("description", J.s "Dropdown selection")]),
   ("ModelRelationField", J.obj [("type", J.s "string"), ("description", J.s "UUID reference")]),
   ("CSVListField", J.obj [("type", J.s "string"), ("description", J.s "Comma separated values")]),
   ("CertificateField", J.obj [("type", J.s "string"), ("description", J.s "Certificate Data")]),
   ("EmailField", J.obj [("type", J.s "string"), ("format", J.s "email")]),
   ("ArrayField", J.obj [("type", J.s "array"), ("items", J.obj [("type", J.s "object")])]),
   ("InterfaceField", J.obj [("type", J.s "object"),
     ("additionalProperties", J.obj [("type", J.s "object"),
       ("properties", J.obj [("value", J.obj [("type", J.s "string")]),
         ("selected", J.obj [("type", J.s "integer")])])]),
     ("description", J.s "Interface selection. Keys are Interface IDs (e.g., 'lan', 'wan', 'opt1'). Returns a map of interfaces on read, expects a comma-separated string of Interface IDs on write."),
     ("example", J.obj [("lan", J.obj [("value", J.s "LAN"), ("selected", J.i 0)]),
       ("wan", J.obj [("value", J.s "WAN"), ("selected", J.i 1)])])])]

/-- Type-map lookup for JSON-valued tables. -/
def lookupJ : List (String × J) → String → Option J
  | [], _ => none
  | (k, v) :: t, key => if k = key then some v else lookupJ t key

mutual

/-- `OpenApiGenerator._parse_model_nodes`: recursively parse XML model nodes
into a property dict.  `resolveExt` stands for the instance method
`_resolve_external_enums`, whose result depends only on its source-string
argument and the (read-only) models directory fixed for a generator run. -/
def parseModelNodes (resolveExt : String → List String) (parentNode : XmlEl) :
    List (String × J) :=
  match parentNode with
  | .mk _ _ _ children => parseNodesAcc resolveExt children []
termination_by (sizeOf parentNode, 0)

/-- Loop of `_parse_model_nodes` over the children, accumulating the
properties dict. -/
def parseNodesAcc (resolveExt : String → List String) (elems : List XmlEl)
    (acc : List (String × J)) : List (String × J) :=
  match elems with
  | [] => acc
  | elem :: rest => parseNodesAcc resolveExt rest (parseNodeStep resolveExt elem acc)
termination_by (sizeOf elems, 2)

/-- Body of the `_parse_model_nodes` loop for one child element. -/
def parseNodeStep (resolveExt : String → List String) (elem : XmlEl)
    (properties : List (String × J)) : List (String × J) :=
  let fieldName := elem.tag
  match lookupStr elem.attrib "type" with
  | some fieldType =>
    let cleanType := lstripRel fieldType
    let propDef := (lookupJ TYPE_MAP cleanType).getD (J.obj [("type", J.s "string")])
    let propKvs := match propDef with | J.obj kvs => kvs | _ => []
    let propKvs :=
      if cleanType = "ArrayField" then
        let childProps := parseModelNodes resolveExt elem
        if !childProps.isEmpty then
          setKey propKvs "items" (J.obj [("type", J.s "object"), ("properties", J.obj childProps)])
        else
          setKey propKvs "items" (J.obj [("type", J.s "object"), ("additionalProperties", J.b true)])
      else if cleanType = "OptionField" then
        let propKvs :=
          match elem.findChild "OptionValues" with
          | some inlineOpts =>
            let enums := inlineOpts.children.map (fun c => c.tag)
            if !enums.isEmpty then setKey propKvs "enum" (J.arr (enums.map J.s)) else propKvs
          | none => propKvs
        match elem.findChild "Source" with
        | some sourceTag =>
          match sourceTag.text with
          | some srcText =>
            if srcText ≠ "" then
              let enums := resolveExt srcText
              if !enums.isEmpty then setKey propKvs "enum" (J.arr (enums.map J.s)) else propKvs
            else propKvs
          | none => propKvs
        | none => propKvs
      else propKvs
    setKey properties fieldName (J.obj propKvs)
  | none =>
    if !elem.children.isEmpty then
      let childProps := parseModelNodes resolveExt elem
      if !childProps.isEmpty then
        setKey properties fieldName (J.obj [("type", J.s "object"), ("properties", J.obj childProps)])
      else properties
    else properties
termination_by (sizeOf elem, 1)

end

/-- Verb tokens of the UUID path heuristic in
`OpenApiGenerator._add_path_to_spec`. -/
def targetVerbs : List String :=
  ["get", "set", "del", "toggle", "start", "stop", "restart", "kill", "drop",
   "disconnect", "connect"]

/-- Noun tokens of the UUID path heuristic. -/
def targetNouns : List String :=
  ["item", "rule", "server", "client", "job", "route", "alias", "certificate",
   "ca", "session", "key", "vessel"]

/-- Exemption tokens of the UUID path heuristic. -/
def uuidExceptions : List String :=
  ["add", "search", "list", "match", "export", "import", "options"]

/-- The `{uuid}` path parameter object appended by `_add_path_to_spec`. -/
def uuidParam : J :=
  J.obj [("name", J.s "uuid"), ("in", J.s "path"), ("required", J.b true),
    ("schema", J.obj [("type", J.s "string"), ("format", J.s "uuid")]),
    ("description", J.s "Unique ID of the resource")]

/-- UUID heuristic of `_add_path_to_spec`: the action acts on a single
resource when its lower-cased name contains a verb token and a noun token
and no exemption token. -/
def requiresUuid (action : String) : Bool :=
  let actLower := pyLower action
  let hasVerb := targetVerbs.any (fun v => infixOfStr v actLower)
  let hasNoun := targetNouns.any (fun n => infixOfStr n actLower)
  let isException := uuidExceptions.any (fun e => infixOfStr e actLower)
  hasVerb && hasNoun && !isException

/-- The trailing path segment appended for UUID-parameterised actions: a
slash followed by the brace-wrapped parameter name. -/
def uuidSuffix : String :=
  "/" ++ String.mk [lbrace] ++ "uuid" ++ String.mk [rbrace]

/-- Path-and-parameter construction of `_add_path_to_spec` (the part of the
method up to and including the UUID heuristic). -/
def buildActionPath (module controller action : String) : String × List J :=
  let pathBase := "/api/" ++ pyLower module ++ "/" ++ pyLower controller ++ "/" ++ action
  if requiresUuid action then
    (pathBase ++ uuidSuffix, [uuidParam])
  else
    (pathBase, [])

/-! ### Controller parser (`opnsense_openapi/parser/controller_parser.py`) -/

/-- GET-like name patterns of `ControllerParser._guess_http_method`. -/
def getPatterns : List String :=
  ["get", "list", "export", "show", "fetch", "info", "overview", "status"]

/-- POST-like name patterns of `_guess_http_method`. -/
def postPatterns : List String :=
  ["set", "add", "del", "save", "update", "create", "toggle", "reconfigure"]

/-- `ControllerParser._guess_http_method`: keyword heuristic for the HTTP
verb of an endpoint ( `parameters` is accepted but never consulted, as in
the source). -/
def guessHttpMethod (endpointName : String) (parameters : List String) : String :=
  let endpointLower := pyLower endpointName
  if getPatterns.any (fun p => infixOfStr p endpointLower) then "GET"
  else if postPatterns.any (fun p => infixOfStr p endpointLower) then "POST"
  else "POST"

/-! ### Spec-file resolution (`opnsense_api/specs.py`)

The specs directory is modelled by the list of version strings extracted
from the `opnsense-<version>.json` files it contains, in directory order.
-/

/-- `specs._version_key`: dotted version string to a tuple of ints; `none`
models the `ValueError` raised by `int()` on a malformed component. -/
def pyVersionKey? (v : String) : Option (List Int) :=
  (splitOnChar '.' v.toList).mapM (fun p => pyInt? p)

/-- Version key with a defaulted value (only applied to keys known to
parse). -/
def versionKeyD (v : String) : List Int :=
  (pyVersionKey? v).getD []

/-- Python tuple comparison on version keys. -/
def keyLE : List Int → List Int → Bool
  | [], _ => true
  | _ :: _, [] => false
  | a :: at2, b :: bt2 =>
    if a < b then true
    else if b < a then false
    else keyLE at2 bt2

/-- Comparison used to sort version strings (`sorted(..., key=_version_key)`). -/
def versionLE (a b : String) : Prop :=
  keyLE (versionKeyD a) (versionKeyD b) = true

instance : DecidableRel versionLE := fun a b => instDecidableEqBool _ _

/-- Ascending sort of version strings by version key. -/
def sortVersions (l : List String) : List String :=
  List.insertionSort versionLE l

/-- `specs.list_available_specs` over the modelled directory: sorted list of
the available versions; `none` models the `ValueError` propagated when the
key of some version fails to parse. -/
def listAvailableSpecs (dir : List String) : Option (List String) :=
  if dir.all (fun v => (pyVersionKey? v).isSome) then some (sortVersions dir) else none

/-- Result of `specs.find_best_matching_spec`; error constructors carry the
data interpolated into the corresponding exception message, so `notFound`
carries the enumerated list of available versions and `invalidFormat` does
not. -/
inductive SpecResult where
  | found (version : String)
  | invalidFormat (version : String)
  | notFound (version : String) (majorMinor : String) (available : List String)
  | keyError
  deriving DecidableEq, Repr

/-- Whether a result is the enumerating not-found error. -/
def SpecResult.isNotFound : SpecResult → Bool
  | .notFound _ _ _ => true
  | _ => false

/-- `specs.find_best_matching_spec`: exact match first; on a miss the
swallowed `get_spec_path` error interpolates `list_available_specs()` into
its message, so an unparseable directory key raises `ValueError` (modelled
as `keyError`) before the component-count check; then the invalid-format
check, then the highest available version sharing the requested
major.minor, else the enumerating not-found error. -/
def findBestMatchingSpec (dir : List String) (version : String) : SpecResult :=
  if dir.contains version then .found version
  else
    match listAvailableSpecs dir with
    | none => .keyError
    | some available =>
      match splitOnChar '.' version.toList with
      | p0 :: p1 :: _ =>
        let majorMinor := String.mk p0 ++ "." ++ String.mk p1
        let matching := available.filter
          (fun v => (majorMinor ++ ".").toList.isPrefixOf v.toList || v == majorMinor)
        if matching.isEmpty then .notFound version majorMinor available
        else
          match (sortVersions matching).getLast? with
          | some best => .found best
          | none => .keyError
      | _ => .invalidFormat version

/-! ### Client wrapper endpoint listing (`opnsense_api/openapi.py`) -/

/-- First sentence extraction used by `APIWrapper.list_endpoints` for the
description fallback: the text before the first period, when one occurs. -/
def firstSentence (d : String) : String :=
  if infixOfStr "." d then ((splitOnChar '.' d.toList).headD d.toList).asString else d

/-- Inner loop of `APIWrapper.list_endpoints` over the method keys of one
path item; the operation for a key is re-fetched from the full `methods`
dict, as `methods[m]` does.  `none` models the exception Python raises when
an operation is not a dict or a split description is not a string. -/
def listEndpointsOpsLoop (pathKey : String) (methods : List (String × J)) :
    List (String × J) → List (String × String × J) → Option (List (String × String × J))
  | [], acc => some acc
  | mv :: rest, acc =>
    match (getKey methods mv.1).getD J.null with
    | J.obj op =>
      if hasKey op "summary" then
        listEndpointsOpsLoop pathKey methods rest
          (acc ++ [(pathKey, pyUpper mv.1, (getKey op "summary").getD J.null)])
      else if hasKey op "description" then
        match (getKey op "description").getD J.null with
        | J.s d =>
          listEndpointsOpsLoop pathKey methods rest
            (acc ++ [(pathKey, pyUpper mv.1, J.s (firstSentence d))])
        | _ => none
      else listEndpointsOpsLoop pathKey methods rest acc
    | _ => none

/-- Outer loop of `list_endpoints` over the paths; the path item is
re-fetched from the full paths dict, as `paths.get(path, ...)` does. -/
def listEndpointsPathsLoop (paths : List (String × J)) :
    List (String × J) → List (String × String × J) → Option (List (String × String × J))
  | [], acc => some acc
  | pv :: rest, acc =>
    match (getKey paths pv.1).getD (J.obj []) with
    | J.obj methods =>
      match listEndpointsOpsLoop pv.1 methods methods acc with
      | some acc2 => listEndpointsPathsLoop paths rest acc2
      | none => none
    | _ => none

/-- `APIWrapper.list_endpoints`: (path, METHOD, summary) triples for the
operations of a loaded document. -/
def listEndpoints (spec : J) : Option (List (String × String × J)) :=
  match jGet spec "paths" with
  | some (J.obj paths) => listEndpointsPathsLoop paths paths []
  | _ => none

end OpnSense

namespace OpnSense

/-! ### Response analyzer (`opnsense_api/parser/response_analyzer.py`)

Method bodies and file contents are character lists.  The concrete regular
expressions used by the analyzer are modelled by deterministic scanners
(`...At` functions match at one position; `reFindall` / `reSearchB` /
`reSearchO` scan left to right exactly as `re.findall` / `re.search` do,
continuing after the end of each non-overlapping match).
-/

/-- Double-quote character. -/
def dq : Char := '"'

/-- A double-quoted PHP token, e.g. the seven characters of a quoted
`status`. -/
def dqTok (s : String) : List Char := dq :: s.toList ++ [dq]

/-- A single-quoted PHP token. -/
def sqTok (s : String) : List Char := sq :: s.toList ++ [sq]

/-- Non-overlapping left-to-right collection of all matches of a
position-matcher, as `re.findall` does; each successful match consumes at
least one character, so fuel `length + 1` is never exhausted. -/
def reFindall (matchAt : List Char → Option (List Char × List Char)) :
    Nat → List Char → List (List Char)
  | _, [] => []
  | 0, _ :: _ => []
  | fuel + 1, c :: t =>
    match matchAt (c :: t) with
    | some (cap, rest) => cap :: reFindall matchAt fuel rest
    | none => reFindall matchAt fuel t

/-- Left-to-right existence scan of a position matcher (`re.search` used as
a boolean test). -/
def reSearchB (matchAt : List Char → Bool) : List Char → Bool
  | [] => matchAt []
  | c :: t => matchAt (c :: t) || reSearchB matchAt t

/-- Left-to-right first-result scan of a position matcher (`re.search` whose
first match's capture or end is consumed). -/
def reSearchO (matchAt : List Char → Option (List Char)) : List Char → Option (List Char)
  | [] => matchAt []
  | c :: t =>
    match matchAt (c :: t) with
    | some r => some r
    | none => reSearchO matchAt t

/-- Position matcher for the return-statement pattern
`return`, one-or-more whitespace, a non-empty semicolon-free capture, `;`
(DOTALL).  When everything between the whitespace run and the semicolon is
empty the regex backtracks one whitespace character into the capture. -/
def matchReturnAt (s : List Char) : Option (List Char × List Char) :=
  if (str "return").isPrefixOf s then
    let rest := s.drop 6
    let w := rest.takeWhile isWS
    if w.isEmpty then none
    else
      let r1 := rest.dropWhile isWS
      let between := r1.takeWhile (fun c => c ≠ ';')
      match r1.dropWhile (fun c => c ≠ ';') with
      | _ :: afterSemi =>
        if between.isEmpty then
          if 2 ≤ w.length then
            match w.getLast? with
            | some c => some ([c], afterSemi)
            | none => none
          else none
        else some (between, afterSemi)
      | [] => none
  else none

/-- All return expressions of a method body (`_analyze_returns`'s
`re.findall` over the body). -/
def findReturns (methodBody : List Char) : List (List Char) :=
  reFindall matchReturnAt (methodBody.length + 1) methodBody

/-- Position matcher for the assignment pattern: the literal (escaped)
variable text, `\s*`, `=`, then a non-empty semicolon-free capture and `;`
(DOTALL), with the same one-character backtracking corner case. -/
def matchAssignAt (var : List Char) (s : List Char) : Option (List Char × List Char) :=
  if var.isPrefixOf s then
    let rest := s.drop var.length
    let r1 := rest.dropWhile isWS
    match r1 with
    | '=' :: r2 =>
      let between := r2.takeWhile (fun c => c ≠ ';')
      match r2.dropWhile (fun c => c ≠ ';') with
      | _ :: afterSemi =>
        let cap := between.dropWhile isWS
        if cap.isEmpty then
          match between.getLast? with
          | some w => some ([w], afterSemi)
          | none => none
        else some (cap, afterSemi)
      | [] => none
    | _ => none
  else none

/-- All assignment captures for a variable in a method body
(`_trace_variable`'s `re.findall`). -/
def findAssigns (methodBody var : List Char) : List (List Char) :=
  reFindall (matchAssignAt var) (methodBody.length + 1) methodBody

/-- The `assignment.split()[0]` / `re.match((backslash-dollar
backslash-w-plus), ...)` step of `_trace_variable`: the chained variable
name, when the assignment leads with one. -/
def nextVarOf (assignment : List Char) : Option (List Char) :=
  match assignment.takeWhile (fun c => !(isWS c)) with
  | '$' :: t =>
    let w := t.takeWhile isWordChar
    if w.isEmpty then none else some ('$' :: w)
  | _ => none

/-- `_trace_variable`: resolve a variable to the expression of its last
assignment in the whole body, following variable-to-variable chains; the
fuel argument is `max_depth - depth` (the method is entered with depth 0
and `max_depth = 5`). -/
def traceVariableAux (methodBody : List Char) : Nat → List Char → Option (List Char)
  | 0, _ => none
  | fuel + 1, varName =>
    match (findAssigns methodBody varName).getLast? with
    | none => none
    | some lastCap =>
      let assignment := pyStrip lastCap
      if assignment.head? = some '$' then
        match nextVarOf assignment with
        | some nv =>
          match traceVariableAux methodBody fuel nv with
          | some traced => if traced.isEmpty then some assignment else some traced
          | none => some assignment
        | none => some assignment
      else some assignment

/-- The tracing step of `_analyze_returns`: a bare-variable return
expression is replaced by its traced assignment when tracing yields a
non-empty result. -/
def traceStep (methodBody expr : List Char) : List Char :=
  if expr.head? = some '$' then
    let varName := expr.takeWhile (fun c => !(isWS c))
    match traceVariableAux methodBody 5 varName with
    | some traced => if traced.isEmpty then expr else traced
    | none => expr
  else expr

/-- `BASE_METHOD_SCHEMAS["searchBase"]`. -/
def searchBaseSchema : J :=
  J.obj [("type", J.s "object"),
    ("properties", J.obj [
      ("rows", J.obj [("type", J.s "array"), ("items", J.obj [("type", J.s "object")]),
        ("description", J.s "Array of matching records")]),
      ("rowCount", J.obj [("type", J.s "integer"), ("description", J.s "Number of rows in current page")]),
      ("total", J.obj [("type", J.s "integer"), ("description", J.s "Total number of matching records")]),
      ("current", J.obj [("type", J.s "integer"), ("description", J.s "Current page number")])]),
    ("required", J.arr [J.s "rows", J.s "rowCount", J.s "total", J.s "current"])]

/-- `BASE_METHOD_SCHEMAS["searchRecordsetBase"]` (textually identical to the
searchBase entry in the source). -/
def searchRecordsetBaseSchema : J :=
  J.obj [("type", J.s "object"),
    ("properties", J.obj [
      ("rows", J.obj [("type", J.s "array"), ("items", J.obj [("type", J.s "object")]),
        ("description", J.s "Array of matching records")]),
      ("rowCount", J.obj [("type", J.s "integer"), ("description", J.s "Number of rows in current page")]),
      ("total", J.obj [("type", J.s "integer"), ("description", J.s "Total number of matching records")]),
      ("current", J.obj [("type", J.s "integer"), ("description", J.s "Current page number")])]),
    ("required", J.arr [J.s "rows", J.s "rowCount", J.s "total", J.s "current"])]

/-- `BASE_METHOD_SCHEMAS["getBase"]`. -/
def getBaseSchema : J :=
  J.obj [("type", J.s "object"),
    ("description", J.s "Returns model data under a key matching the model name"),
    ("additionalProperties", J.b true)]

/-- `BASE_METHOD_SCHEMAS["setBase"]`. -/
def setBaseSchema : J :=
  J.obj [("type", J.s "object"),
    ("properties", J.obj [
      ("result", J.obj [("type", J.s "string"), ("enum", J.arr [J.s "saved", J.s "failed"]),
        ("description", J.s "Operation result")]),
      ("validations", J.obj [("type", J.s "object"),
        ("description", J.s "Validation errors if any"),
        ("additionalProperties", J.obj [("type", J.s "string")])])]),
    ("required", J.arr [J.s "result"])]

/-- `BASE_METHOD_SCHEMAS["addBase"]`. -/
def addBaseSchema : J :=
  J.obj [("type", J.s "object"),
    ("properties", J.obj [
      ("result", J.obj [("type", J.s "string"), ("enum", J.arr [J.s "saved", J.s "failed"]),
        ("description", J.s "Operation result")]),
      ("uuid", J.obj [("type", J.s "string"), ("description", J.s "UUID of created item")]),
      ("validations", J.obj [("type", J.s "object"),
        ("description", J.s "Validation errors if any"),
        ("additionalProperties", J.obj [("type", J.s "string")])])]),
    ("required", J.arr [J.s "result"])]

/-- `BASE_METHOD_SCHEMAS["delBase"]`. -/
def delBaseSchema : J :=
  J.obj [("type", J.s "object"),
    ("properties", J.obj [
      ("result", J.obj [("type", J.s "string"),
        ("enum", J.arr [J.s "deleted", J.s "failed", J.s "not_found"]),
        ("description", J.s "Deletion result")])]),
    ("required", J.arr [J.s "result"])]

/-- `BASE_METHOD_SCHEMAS["toggleBase"]`. -/
def toggleBaseSchema : J :=
  J.obj [("type", J.s "object"),
    ("properties", J.obj [
      ("result", J.obj [("type", J.s "string"), ("enum", J.arr [J.s "saved", J.s "failed"]),
        ("description", J.s "Toggle operation result")]),
      ("changed", J.obj [("type", J.s "boolean"), ("description", J.s "Whether state was changed")])]),
    ("required", J.arr [J.s "result"])]

/-- `BASE_METHOD_SCHEMAS["startAction"]`. -/
def startActionSchema : J :=
  J.obj [("type", J.s "object"),
    ("properties", J.obj [
      ("response", J.obj [("type", J.s "string"), ("description", J.s "Service start response output")])]),
    ("required", J.arr [J.s "response"])]

/-- `BASE_METHOD_SCHEMAS["stopAction"]`. -/
def stopActionSchema : J :=
  J.obj [("type", J.s "object"),
    ("properties", J.obj [
      ("response", J.obj [("type", J.s "string"), ("description", J.s "Service stop response output")])]),
    ("required", J.arr [J.s "response"])]

/-- `BASE_METHOD_SCHEMAS["restartAction"]`. -/
def restartActionSchema : J :=
  J.obj [("type", J.s "object"),
    ("properties", J.obj [
      ("response", J.obj [("type", J.s "string"), ("description", J.s "Service restart response output")])]),
    ("required", J.arr [J.s "response"])]

/-- `BASE_METHOD_SCHEMAS["reconfigureAction"]`. -/
def reconfigureActionSchema : J :=
  J.obj [("type", J.s "object"),
    ("properties", J.obj [
      ("status", J.obj [("type", J.s "string"), ("enum", J.arr [J.s "ok", J.s "failed"]),
        ("description", J.s "Reconfigure operation status")])]),
    ("required", J.arr [J.s "status"])]

/-- `BASE_METHOD_SCHEMAS["statusAction"]`. -/
def statusActionSchema : J :=
  J.obj [("type", J.s "object"),
    ("properties", J.obj [
      ("status", J.obj [("type", J.s "string"),
        ("enum", J.arr [J.s "running", J.s "stopped", J.s "disabled", J.s "unknown"]),
        ("description", J.s "Service status")]),
      ("widget", J.obj [("type", J.s "object"),
        ("properties", J.obj [
          ("caption_restart", J.obj [("type", J.s "string")]),
          ("caption_start", J.obj [("type", J.s "string")]),
          ("caption_stop", J.obj [("type", J.s "string")])]),
        ("description", J.s "Widget caption translations")])]),
    ("required", J.arr [J.s "status"])]

/-- `ResponseAnalyzer.BASE_METHOD_SCHEMAS` in its insertion order. -/
def BASE_METHOD_SCHEMAS : List (String × J) :=
  [("searchBase", searchBaseSchema),
   ("searchRecordsetBase", searchRecordsetBaseSchema),
   ("getBase", getBaseSchema),
   ("setBase", setBaseSchema),
   ("addBase", addBaseSchema),
   ("delBase", delBaseSchema),
   ("toggleBase", toggleBaseSchema),
   ("startAction", startActionSchema),
   ("stopAction", stopActionSchema),
   ("restartAction", restartActionSchema),
   ("reconfigureAction", reconfigureActionSchema),
   ("statusAction", statusActionSchema)]

/-- `_match_base_method`: first base method whose `$this->name(` call text
occurs in the return expression. -/
def matchBaseMethod (returnExpr : List Char) : Option J :=
  BASE_METHOD_SCHEMAS.findSome? (fun p =>
    if infixOf ("$this->" ++ p.1 ++ "(").toList returnExpr then some p.2 else none)

/-- Position matcher for `$this->`, a captured word run, `\s*`, `(`. -/
def matchThisCallAt (s : List Char) : Option (List Char) :=
  if (str "$this->").isPrefixOf s then
    let rest := s.drop 7
    let w := rest.takeWhile isWordChar
    if w.isEmpty then none
    else
      match (rest.drop w.length).dropWhile isWS with
      | '(' :: _ => some w
      | _ => none
  else none

/-- The access-modifier alternative of the method-declaration pattern. -/
def afterKeyword (s : List Char) : Option (List Char) :=
  if (str "public").isPrefixOf s then some (s.drop 6)
  else if (str "private").isPrefixOf s then some (s.drop 7)
  else if (str "protected").isPrefixOf s then some (s.drop 9)
  else none

/-- Position matcher for the method-declaration pattern of
`_extract_method_body`: an access modifier, whitespace, `function`,
whitespace, the method name, `\s*`, a parenthesised parameter list without
`)`, `\s*` and the opening brace; returns the text after the brace. -/
def methodDeclAt (name : List Char) (s : List Char) : Option (List Char) :=
  match afterKeyword s with
  | none => none
  | some r0 =>
    if (r0.takeWhile isWS).isEmpty then none
    else
      let r1 := r0.dropWhile isWS
      if (str "function").isPrefixOf r1 then
        let r2 := r1.drop 8
        if (r2.takeWhile isWS).isEmpty then none
        else
          let r3 := r2.dropWhile isWS
          if name.isPrefixOf r3 then
            match (r3.drop name.length).dropWhile isWS with
            | '(' :: r5 =>
              match r5.dropWhile (fun c => c ≠ ')') with
              | ')' :: r6 =>
                match r6.dropWhile isWS with
                | c :: r7 => if c = lbrace then some r7 else none
                | [] => none
              | _ => none
            | _ => none
          else none
      else none

/-- Brace counting of `_extract_method_body` after the opening brace; the
body excludes the matching closing brace, and an unbalanced body yields
`none`. -/
def extractBraceBody : List Char → Nat → List Char → Option (List Char)
  | [], _, _ => none
  | c :: t, depth, acc =>
    let d2 := if c = lbrace then depth + 1 else if c = rbrace then depth - 1 else depth
    if d2 = 0 then some acc.reverse else extractBraceBody t d2 (c :: acc)

/-- `_extract_method_body`. -/
def extractMethodBody (content : List Char) (methodName : List Char) : Option (List Char) :=
  (reSearchO (methodDeclAt methodName) content).bind (fun rest => extractBraceBody rest 1 [])

/-- Schema of the `status` branch of `_match_service_action`. -/
def serviceStatusSchema : J :=
  J.obj [("type", J.s "object"),
    ("properties", J.obj [
      ("status", J.obj [("type", J.s "string"), ("enum", J.arr [J.s "ok", J.s "failed"]),
        ("description", J.s "Service action status")])]),
    ("required", J.arr [J.s "status"])]

/-- Schema of the `result` branch of `_match_service_action`. -/
def serviceResultSchema : J :=
  J.obj [("type", J.s "object"),
    ("properties", J.obj [
      ("result", J.obj [("type", J.s "string"), ("enum", J.arr [J.s "ok", J.s "failed"]),
        ("description", J.s "Service action result")])]),
    ("required", J.arr [J.s "result"])]

/-- `_match_service_action`. -/
def matchServiceAction (methodBody returnExpr : List Char) : Option J :=
  let hasBackendCall := infixOf (str "Backend()") methodBody &&
    (infixOf (str "configdRun") methodBody || infixOf (str "configdpRun") methodBody)
  if !hasBackendCall then none
  else
    let okFailed := infixOf (dqTok "ok") returnExpr || infixOf (sqTok "ok") returnExpr ||
      infixOf (dqTok "failed") returnExpr || infixOf (sqTok "failed") returnExpr
    if (infixOf (dqTok "status") returnExpr || infixOf (sqTok "status") returnExpr) && okFailed then
      some serviceStatusSchema
    else if (infixOf (dqTok "result") returnExpr || infixOf (sqTok "result") returnExpr) && okFailed then
      some serviceResultSchema
    else none

/-- Array-of-objects schema returned for decoded/exported lists. -/
def arrayItemsObjectSchema : J :=
  J.obj [("type", J.s "array"), ("items", J.obj [("type", J.s "object")]),
    ("description", J.s "Array of items")]

/-- Dynamic-keys object schema for associative arrays built up in a body. -/
def dynamicKeysSchema : J :=
  J.obj [("type", J.s "object"), ("additionalProperties", J.b true),
    ("description", J.s "Object with dynamic keys")]

/-- Schema for the `rows` wrapper pattern. -/
def rowsWrapperSchema : J :=
  J.obj [("type", J.s "object"),
    ("properties", J.obj [
      ("rows", J.obj [("type", J.s "array"), ("items", J.obj [("type", J.s "object")]),
        ("description", J.s "Array of items")])])]

/-- Plain-array schema of `_match_plain_array`. -/
def plainArraySchema : J :=
  J.obj [("type", J.s "array"), ("items", J.obj [("type", J.s "string")]),
    ("description", J.s "List of items")]

/-- Position matcher for the empty-initialiser pattern capturing a variable:
a variable, `\s*=\s*`, an empty bracket or `array()` literal, `\s*;`. -/
def varInitAt (s : List Char) : Option (List Char × List Char) :=
  match s with
  | '$' :: t =>
    let w := t.takeWhile isWordChar
    if w.isEmpty then none
    else
      match (t.drop w.length).dropWhile isWS with
      | '=' :: r2 =>
        let r3 := r2.dropWhile isWS
        match r3 with
        | '[' :: r4 =>
          match r4.dropWhile isWS with
          | ']' :: r5 =>
            match r5.dropWhile isWS with
            | ';' :: r6 => some ('$' :: w, r6)
            | _ => none
          | _ => none
        | _ =>
          if (str "array(").isPrefixOf r3 then
            match (r3.drop 6).dropWhile isWS with
            | ')' :: r5 =>
              match r5.dropWhile isWS with
              | ';' :: r6 => some ('$' :: w, r6)
              | _ => none
            | _ => none
          else none
      | _ => none
  | _ => none

/-- Position matcher for a keyed assignment into a variable:
the variable, `[`, any characters other than `]`, `]`, `\s*`, `=`. -/
def bracketAssignAt (var : List Char) (s : List Char) : Bool :=
  if var.isPrefixOf s then
    match s.drop var.length with
    | '[' :: r1 =>
      match r1.dropWhile (fun c => c ≠ ']') with
      | ']' :: r2 =>
        match r2.dropWhile isWS with
        | '=' :: _ => true
        | _ => false
      | _ => false
    | _ => false
  else false

/-- Position matcher for `array_push`, `\s*`, `(`, `\s*`, the variable. -/
def arrayPushAt (var : List Char) (s : List Char) : Bool :=
  if (str "array_push").isPrefixOf s then
    match (s.drop 10).dropWhile isWS with
    | '(' :: r1 => var.isPrefixOf (r1.dropWhile isWS)
    | _ => false
  else false

/-- Position matcher for the variable, `\s*=\s*`, `json_decode`, `\s*`, `(`. -/
def jsonDecodeAssignAt (var : List Char) (s : List Char) : Bool :=
  if var.isPrefixOf s then
    match (s.drop var.length).dropWhile isWS with
    | '=' :: r1 =>
      let r2 := r1.dropWhile isWS
      if (str "json_decode").isPrefixOf r2 then
        match (r2.drop 11).dropWhile isWS with
        | '(' :: _ => true
        | _ => false
      else false
    | _ => false
  else false

/-- Position matcher for the variable, `\s*=\s*`, `[`, `\s*`, `];`. -/
def initEmptyListAt (var : List Char) (s : List Char) : Bool :=
  if var.isPrefixOf s then
    match (s.drop var.length).dropWhile isWS with
    | '=' :: r1 =>
      match r1.dropWhile isWS with
      | '[' :: r2 =>
        match r2.dropWhile isWS with
        | ']' :: ';' :: _ => true
        | _ => false
      | _ => false
    | _ => false
  else false

/-- Position matcher for the variable, `\s*=\s*`, `array(`, `\s*`, `);`. -/
def initEmptyArrayAt (var : List Char) (s : List Char) : Bool :=
  if var.isPrefixOf s then
    match (s.drop var.length).dropWhile isWS with
    | '=' :: r1 =>
      let r2 := r1.dropWhile isWS
      if (str "array(").isPrefixOf r2 then
        match (r2.drop 6).dropWhile isWS with
        | ')' :: ';' :: _ => true
        | _ => false
      else false
    | _ => false
  else false

/-- Position matcher for the variable, `[`, `\s*`, `]`, `\s*`, `=`. -/
def emptyIndexAssignAt (var : List Char) (s : List Char) : Bool :=
  if var.isPrefixOf s then
    match s.drop var.length with
    | '[' :: r1 =>
      match r1.dropWhile isWS with
      | ']' :: r2 =>
        match r2.dropWhile isWS with
        | '=' :: _ => true
        | _ => false
      | _ => false
    | _ => false
  else false

/-- The two array-building patterns checked, in order, by
`_detect_list_export_pattern`. -/
def hasBuildPattern (methodBody var : List Char) : Bool :=
  reSearchB (bracketAssignAt var) methodBody || reSearchB (arrayPushAt var) methodBody

/-- The leading variable of a return expression (`re.match` of a dollar sign
followed by word characters). -/
def wordVarOf (expr : List Char) : Option (List Char) :=
  match expr with
  | '$' :: t =>
    let w := t.takeWhile isWordChar
    if w.isEmpty then none else some ('$' :: w)
  | _ => none

/-- `_detect_list_export_pattern`. -/
def detectListExportPattern (methodBody returnExpr : List Char) : Option J :=
  if infixOf (str "json_decode") returnExpr then some arrayItemsObjectSchema
  else if (pyStrip returnExpr = str "[]" || pyStrip returnExpr = str "array()") &&
      (reFindall varInitAt (methodBody.length + 1) methodBody).any
        (fun v => hasBuildPattern methodBody v) then
    some dynamicKeysSchema
  else if returnExpr.head? = some '$' then
    match wordVarOf returnExpr with
    | none => none
    | some varName =>
      if reSearchB (jsonDecodeAssignAt varName) methodBody then some arrayItemsObjectSchema
      else if (reSearchB (initEmptyListAt varName) methodBody ||
          reSearchB (initEmptyArrayAt varName) methodBody) &&
          hasBuildPattern methodBody varName then
        some dynamicKeysSchema
      else if infixOf (dqTok "rows") returnExpr || infixOf (sqTok "rows") returnExpr then
        some rowsWrapperSchema
      else none
  else if infixOf (dqTok "rows") returnExpr || infixOf (sqTok "rows") returnExpr then
    some rowsWrapperSchema
  else none

/-- `_match_plain_array`. -/
def matchPlainArray (methodBody returnExpr : List Char) : Option J :=
  if returnExpr.head? = some '$' then
    match wordVarOf returnExpr with
    | none => none
    | some varName =>
      if reSearchB (initEmptyListAt varName) methodBody ||
         reSearchB (initEmptyArrayAt varName) methodBody ||
         reSearchB (emptyIndexAssignAt varName) methodBody ||
         reSearchB (arrayPushAt varName) methodBody then
        some plainArraySchema
      else none
  else none

/-- Position matcher for the quoted-key pattern of
`_extract_array_properties` (either quote kind on either side), returning
the key and the remainder after the arrow and its trailing whitespace. -/
def keyMatchAt (s : List Char) : Option (List Char × List Char) :=
  match s.dropWhile isWS with
  | q1 :: r1 =>
    if q1 = dq || q1 = sq then
      let w := r1.takeWhile isWordChar
      if w.isEmpty then none
      else
        match r1.drop w.length with
        | q2 :: r2 =>
          if q2 = dq || q2 = sq then
            match r2.dropWhile isWS with
            | '=' :: '>' :: r3 => some (w, r3.dropWhile isWS)
            | _ => none
          else none
        | [] => none
    else none
  | [] => none

/-- Depth-counted scan of `_extract_value` for nested structures: number of
characters consumed after the opener until balance is restored (or the end
of the text). -/
def braceScan (openC closeC : Char) : List Char → Nat → Nat → Nat
  | [], _, n => n
  | c :: t, depth, n =>
    let d2 := if c = openC then depth + 1 else if c = closeC then depth - 1 else depth
    if d2 = 0 then n + 1 else braceScan openC closeC t d2 (n + 1)

/-- `_extract_value` on the suffix after a matched key: the value text and
the number of characters consumed. -/
def extractValue (t : List Char) : List Char × Nat :=
  let wsn := (t.takeWhile isWS).length
  let r := t.drop wsn
  match r with
  | [] => ([], 0)
  | '[' :: r1 =>
    let k := braceScan '[' ']' r1 1 0
    (r.take (k + 1), wsn + k + 1)
  | _ =>
    if (str "array(").isPrefixOf r then
      let k := braceScan '(' ')' (r.drop 6) 1 0
      (r.take (k + 6), wsn + k + 6)
    else
      let v := r.takeWhile (fun c => !(c = ',' || c = ']' || c = ')' || c = '\n'))
      (pyStrip v, wsn + v.length)

/-- The integer-literal test of `_infer_value_type`. -/
def isIntLiteral (v : List Char) : Bool :=
  match v with
  | '-' :: r => !r.isEmpty && r.all Char.isDigit
  | r => !r.isEmpty && r.all Char.isDigit

/-- The float-literal test of `_infer_value_type`. -/
def isFloatLiteral (v : List Char) : Bool :=
  let core := match v with | '-' :: r => r | r => r
  let ip := core.takeWhile Char.isDigit
  match core.drop ip.length with
  | '.' :: fr => !ip.isEmpty && !fr.isEmpty && fr.all Char.isDigit
  | _ => false

/-- `_infer_value_type`. -/
def inferValueType (value : List Char) : J :=
  let v := pyStrip value
  if v = str "true" || v = str "false" then J.obj [("type", J.s "boolean")]
  else if v = str "null" then J.obj [("type", J.s "null")]
  else if isIntLiteral v then J.obj [("type", J.s "integer")]
  else if isFloatLiteral v then J.obj [("type", J.s "number")]
  else if v.head? = some '[' || (str "array(").isPrefixOf v then
    J.obj [("type", J.s "array"), ("items", J.obj [("type", J.s "object")])]
  else if (v.head? = some dq && v.getLast? = some dq) ||
      (v.head? = some sq && v.getLast? = some sq) then
    J.obj [("type", J.s "string")]
  else J.obj [("type", J.s "string")]

/-- The scanning loop of `_extract_array_properties`. -/
def extractPropsLoop : Nat → List Char → List (String × J) → List (String × J)
  | 0, _, acc => acc
  | _, [], acc => acc
  | fuel + 1, s, acc =>
    match keyMatchAt s with
    | none => extractPropsLoop fuel s.tail acc
    | some (key, rest) =>
      let (valueStr, consumed) := extractValue rest
      let acc2 :=
        if valueStr.isEmpty then acc
        else setKey acc (String.mk key) (inferValueType (pyStrip valueStr))
      extractPropsLoop fuel (rest.drop consumed) acc2

/-- `_extract_array_properties`. -/
def extractArrayProperties (arrayStr : List Char) : List (String × J) :=
  let s0 := pyStrip arrayStr
  let s1 :=
    if (str "array(").isPrefixOf s0 then (s0.drop 6).dropLast
    else if s0.head? = some '[' then (s0.drop 1).dropLast
    else s0
  extractPropsLoop (s1.length + 1) s1 []

/-- `_parse_array_literal`. -/
def parseArrayLiteral (returnExpr : List Char) : Option J :=
  if returnExpr.head? = some '[' || (str "array(").isPrefixOf returnExpr then
    let properties := extractArrayProperties returnExpr
    if !properties.isEmpty then
      some (J.obj [("type", J.s "object"), ("properties", J.obj properties)])
    else none
  else none

/-- Schema of the simple `status` mention pattern. -/
def simpleStatusSchema : J :=
  J.obj [("type", J.s "object"),
    ("properties", J.obj [
      ("status", J.obj [("type", J.s "string"), ("description", J.s "Operation status")])])]

/-- Schema of the simple `result` mention pattern. -/
def simpleResultSchema : J :=
  J.obj [("type", J.s "object"),
    ("properties", J.obj [
      ("result", J.obj [("type", J.s "string"), ("description", J.s "Operation result")])])]

/-- `_match_simple_patterns`. -/
def matchSimplePatterns (returnExpr : List Char) : Option J :=
  if infixOf (dqTok "status") returnExpr || infixOf (sqTok "status") returnExpr then
    some simpleStatusSchema
  else if infixOf (dqTok "result") returnExpr || infixOf (sqTok "result") returnExpr then
    some simpleResultSchema
  else none

/-- Python truthiness of an optional dict entry. -/
def pyTruthyO (o : Option J) : Bool :=
  match o with
  | none => false
  | some v => pyTruthy v

/-- `_merge_property_schemas`: merge two property schemas for the same
property name. -/
def mergePropertySchemas (schema1 schema2 : J) : J :=
  if jGet schema1 "type" == jGet schema2 "type" then
    let merged := match schema1 with | J.obj kvs => kvs | _ => []
    let enum1 := pyDedup (jStrList (jGet schema1 "enum"))
    let enum2 := pyDedup (jStrList (jGet schema2 "enum"))
    let merged :=
      if !(enum1.isEmpty && enum2.isEmpty) then
        setKey merged "enum" (J.arr ((pySortedSet (enum1 ++ enum2)).map J.s))
      else merged
    let merged :=
      if !(pyTruthyO (getKey merged "description")) && pyTruthyO (jGet schema2 "description") then
        setKey merged "description" ((jGet schema2 "description").getD J.null)
      else merged
    J.obj merged
  else J.obj [("type", J.s "string")]

/-- The required names of a schema, as the Python set built by
`_merge_schemas` from `schema.get("required", [])`. -/
def jReqSet (s : J) : List String :=
  pyDedup (jStrList (jGet s "required"))

/-- One property of one branch merged into the accumulated properties dict
(the body of the properties loop in `_merge_schemas`). -/
def mergePropsStep (mp : List (String × J)) (p : String × J) : List (String × J) :=
  setKey mp p.1
    (match getKey mp p.1 with
     | some existing => mergePropertySchemas existing p.2
     | none => p.2)

/-- One step of the `_merge_schemas` fold over the schemas: merge the
properties into the accumulated dict and intersect the required sets (an
empty accumulated set is replaced rather than intersected, mirroring the
falsiness test in the source). -/
def mergeStep (acc : List (String × J) × List String) (schema : J) :
    List (String × J) × List String :=
  if !(jGet schema "type" == some (J.s "object")) then acc
  else
    let props := jObjKvs (jGet schema "properties")
    let mergedProps := props.foldl mergePropsStep acc.1
    let required := jReqSet schema
    let mergedReq :=
      if acc.2.isEmpty then required
      else acc.2.filter (fun n => required.contains n)
    (mergedProps, mergedReq)

/-- `_merge_schemas`: merge the schemas inferred from several return
statements. -/
def mergeSchemas (schemas : List J) : J :=
  match schemas with
  | [] => J.obj [("type", J.s "object")]
  | [s] => s
  | _ =>
    let folded := schemas.foldl mergeStep ([], [])
    J.obj ([("type", J.s "object"), ("properties", J.obj folded.1)] ++
      (if folded.2.isEmpty then []
       else [("required", J.arr ((pySortedSet folded.2).map J.s))]))

/-- `_resolve_method_call`, parameterised by the next-depth analyzer. -/
def resolveMethodCallWith (analyze : List Char → List Char → Option J)
    (returnExpr fileContent : List Char) : Option J :=
  match reSearchO matchThisCallAt returnExpr with
  | none => none
  | some calledMethod =>
    match extractMethodBody fileContent calledMethod with
    | none => none
    | some calledBody => analyze calledBody fileContent

/-- The pattern cascade applied to one return statement after the base-method
check, in the order of `_analyze_returns`; `resolveNext` is the next-depth
analyzer, absent when the depth bound is reached. -/
def returnContribution (resolveNext : Option (List Char → List Char → Option J))
    (methodBody fileContent origExpr tracedExpr : List Char) : Option J :=
  let resolved :=
    match resolveNext with
    | some analyze => resolveMethodCallWith analyze tracedExpr fileContent
    | none => none
  match resolved with
  | some s => some s
  | none =>
    match matchServiceAction methodBody tracedExpr with
    | some s => some s
    | none =>
      match detectListExportPattern methodBody tracedExpr with
      | some s => some s
      | none =>
        match matchPlainArray methodBody origExpr with
        | some s => some s
        | none =>
          match parseArrayLiteral tracedExpr with
          | some s => some s
          | none => matchSimplePatterns tracedExpr

/-- The loop of `_analyze_returns` over the extracted return expressions: a
base-method match short-circuits the whole method; other matches accumulate
and are merged at the end. -/
def analyzeLoop (resolveNext : Option (List Char → List Char → Option J))
    (methodBody fileContent : List Char) :
    List (List Char) → List J → Option J
  | [], schemas => if schemas.isEmpty then none else some (mergeSchemas schemas)
  | r :: rest, schemas =>
    let re0 := pyStrip r
    let re1 := traceStep methodBody re0
    match matchBaseMethod re1 with
    | some s => some s
    | none =>
      match returnContribution resolveNext methodBody fileContent re0 re1 with
      | some s => analyzeLoop resolveNext methodBody fileContent rest (schemas ++ [s])
      | none => analyzeLoop resolveNext methodBody fileContent rest schemas

/-- `_analyze_returns` with fuel `max_depth - depth` for the nested-call
recursion (the analyzer enters at depth 0 with `max_depth = 3`). -/
def analyzeReturnsFuel : Nat → List Char → List Char → Option J
  | 0, methodBody, fileContent =>
    let returns := findReturns methodBody
    if returns.isEmpty then none
    else analyzeLoop none methodBody fileContent returns []
  | f + 1, methodBody, fileContent =>
    let returns := findReturns methodBody
    if returns.isEmpty then none
    else analyzeLoop (some (fun b fc => analyzeReturnsFuel f b fc)) methodBody fileContent returns []

/-- `_analyze_returns` as called on a method body at depth 0. -/
def analyzeReturns (methodBody fileContent : List Char) : Option J :=
  analyzeReturnsFuel 3 methodBody fileContent

end OpnSense

namespace OpnSense

/-! ### Derived observations and concrete inputs used by the theorems -/

/-- Property names of an object schema. -/
def jPropNames (s : J) : List String :=
  (jObjKvs (jGet s "properties")).map Prod.fst

/-- The item schema of an array-wrapped property, or the property itself
when it is not array-wrapped (used to reach the enum of a possibly
`Multiple` field). -/
def itemsOrSelf (p : J) : J :=
  match jGet p "items" with
  | some it => it
  | none => p

/-- The major.minor prefix of a dotted version string (empty when the
version has fewer than two components). -/
def majorMinorOf (version : String) : String :=
  match splitOnChar '.' version.toList with
  | p0 :: p1 :: _ => String.mk p0 ++ "." ++ String.mk p1
  | _ => ""

/-- The available versions sharing the requested major.minor, in the order
`find_best_matching_spec` filters them from the sorted listing. -/
def matchingOf (dir : List String) (version : String) : List String :=
  (sortVersions dir).filter
    (fun v => (majorMinorOf version ++ ".").toList.isPrefixOf v.toList || v == majorMinorOf version)

/-- An operation dict is listable without error: it either declares a
summary, or its declared description (if any) is a string. -/
def descOkay (op : List (String × J)) : Bool :=
  match getKey op "summary" with
  | some _ => true
  | none =>
    match getKey op "description" with
    | some (J.s _) => true
    | some _ => false
    | none => true

/-- Embed a structured paths table (path, methods, operation dict) as a
specification document. -/
def embedPathsDoc (pd : List (String × List (String × List (String × J)))) : J :=
  J.obj [("paths", J.obj (pd.map (fun pm => (pm.1, J.obj (pm.2.map (fun mo => (mo.1, J.obj mo.2)))))))]

/-- The endpoint listing described by the specification: one triple per
operation that declares a summary or a description, the summary falling
back to the first sentence of the description. -/
def listEndpointsSpecFn (pd : List (String × List (String × List (String × J)))) :
    List (String × String × J) :=
  pd.flatMap (fun pm => pm.2.filterMap (fun mo =>
    match getKey mo.2 "summary" with
    | some v => some (pm.1, pyUpper mo.1, v)
    | none =>
      match getKey mo.2 "description" with
      | some (J.s d) => some (pm.1, pyUpper mo.1, J.s (firstSentence d))
      | _ => none))

/-- Branch schema with one property and no required list (a merge input). -/
def c1SchemaA : J :=
  J.obj [("type", J.s "object"),
    ("properties", J.obj [("a", J.obj [("type", J.s "string")])])]

/-- Branch schema requiring `status` (a merge input). -/
def c1SchemaB : J :=
  J.obj [("type", J.s "object"),
    ("properties", J.obj [("status", J.obj [("type", J.s "string")])]),
    ("required", J.arr [J.s "status"])]

/-- Branch schema requiring `status` and `result` (a merge input). -/
def c1SchemaD : J :=
  J.obj [("type", J.s "object"),
    ("properties", J.obj [("status", J.obj [("type", J.s "string")]),
      ("result", J.obj [("type", J.s "string")])]),
    ("required", J.arr [J.s "status", J.s "result"])]

/-- A method body whose only return statement is a `searchBase` call, but
which also contains a comparison of that very call text against something,
so that the assignment-shaped text redirects variable tracing. -/
def c2Body : List Char :=
  str "if ($this->searchBase($q) == $x) \x7b $y = 1; \x7d return $this->searchBase($q);"

/-- A method body whose only return statement is a `searchBase` call and
which contains no assignment-shaped text for it. -/
def c2WitnessBody : List Char :=
  str "return $this->searchBase($srt);"

/-- An XML model fragment with one option field whose declared options are
`a` and `b` and whose declared default is `c`. -/
def c4Parent : XmlEl :=
  .mk "items" [] none
    [.mk "field1" [("type", "OptionField")] none
      [.mk "OptionValues" [] none [.mk "a" [] (some "Label A") [], .mk "b" [] none []],
       .mk "Default" [] (some "c") []]]

/-- The property the generator emits for the option field of `c4Parent`. -/
def c4EmittedProp : J :=
  J.obj [("type", J.s "string"), ("description", J.s "Dropdown selection"),
    ("enum", J.arr [J.s "a", J.s "b"])]

/-- An option field with declared options `a`, `b` and default `c` for the
model parser. -/
def c4Field : ModelField :=
  { name := "fld", fieldType := "OptionField", required := false,
    default := some "c", options := [("a", "A"), ("b", "B")], multiple := false }

/-- A method body with an assignment to `$r` before its return statement and
a different assignment after it. -/
def c8Body : List Char :=
  str "$r = [\x22status\x22 => \x22ok\x22]; return $r; $r = json_decode($x);"

/-- A body with a two-hop assignment chain ending at an array literal. -/
def c8ChainBody : List Char :=
  str "$a = $b; $b = [\x22status\x22 => \x22ok\x22]; return $a;"

/-- A body whose two assignments form a cycle between two variables. -/
def c8CycleBody : List Char :=
  str "$a = $b; $b = $a;"

/-- A simple body assigning a literal to the returned variable. -/
def c8WitnessBody : List Char :=
  str "$y = 42; return $y;"

/-- A document with one operation that declares neither summary nor
description. -/
def c9CounterSpec : J :=
  J.obj [("paths", J.obj [("/p", J.obj [("get", J.obj [])])])]

/-- A structured paths table with one operation documented by a description
and one documented by a summary. -/
def c9WitnessPd : List (String × List (String × List (String × J))) :=
  [("/p", [("get", [("description", J.s "First sentence. Second.")]),
           ("post", [("summary", J.s "Sum")])])]

/-- A method body whose first return is an array literal and whose second
return calls `searchBase`. -/
def c10WitnessBody : List Char :=
  str "if ($a) \x7b return [\x22x\x22 => 1]; \x7d return $this->searchBase($q);"

end OpnSense

namespace OpnSense

/-! ### Helper lemmas -/

/-- A list is a prefix of itself followed by anything. -/
theorem isPrefixOf_append_self (l r : List Char) : l.isPrefixOf (l ++ r) = true :=
  List.isPrefixOf_iff_prefix.mpr (List.prefix_append l r)

/-- A boolean prefix is in particular a substring. -/
theorem infixOf_of_isPrefixOf {l m : List Char} (h : l.isPrefixOf m = true) :
    infixOf l m = true := by
  cases m with
  | nil =>
    have hl : l = [] := List.prefix_nil.mp (List.isPrefixOf_iff_prefix.mp h)
    subst hl; rfl
  | cons c t => simp [infixOf, h]

/-- Boolean list containment agrees with membership for strings. -/
theorem containsStr_iff {l : List String} {x : String} : l.contains x = true ↔ x ∈ l := by
  induction l with
  | nil => simp
  | cons a t ih => simp [List.contains_cons, ih]

/-- Deduplication preserves membership. -/
theorem mem_pyDedup {x : String} : ∀ {l : List String}, x ∈ pyDedup l ↔ x ∈ l := by
  intro l
  induction l with
  | nil => simp [pyDedup]
  | cons a t ih =>
    by_cases h : (pyDedup t).contains a
    · have ha : a ∈ pyDedup t := containsStr_iff.mp h
      simp only [pyDedup, h, if_pos, List.mem_cons]
      constructor
      · intro hx; exact Or.inr (ih.mp hx)
      · rintro (rfl | hx)
        · exact ha
        · exact ih.mpr hx
    · simp only [pyDedup, h, Bool.false_eq_true, if_neg, not_false_iff, List.mem_cons]
      rw [ih]

/-- Sorting preserves membership. -/
theorem mem_pySortedStrings {x : String} {l : List String} :
    x ∈ pySortedStrings l ↔ x ∈ l :=
  (List.perm_insertionSort _ l).mem_iff

/-- The sorted set image preserves membership. -/
theorem mem_pySortedSet {x : String} {l : List String} : x ∈ pySortedSet l ↔ x ∈ l := by
  rw [pySortedSet, mem_pySortedStrings, mem_pyDedup]

/-- Lookup after an update succeeds exactly for the updated key or an
already present key. -/
theorem getKey_setKey_isSome : ∀ (kvs : List (String × J)) (k n : String) (v : J),
    ((getKey (setKey kvs k v) n).isSome = true ↔ (n = k ∨ (getKey kvs n).isSome = true)) := by
  intro kvs
  induction kvs with
  | nil =>
    intro k n v
    by_cases h : k = n
    · subst h; simp [setKey, getKey]
    · have h2 : ¬ n = k := fun hh => h hh.symm
      simp [setKey, getKey, h, h2]
  | cons p t ih =>
    intro k n v
    by_cases hk : p.1 = k
    · by_cases hkn : k = n
      · subst hkn; simp [setKey, getKey, hk]
      · have hpn : ¬ p.1 = n := by rw [hk]; exact hkn
        have hnk : ¬ n = k := fun hh => hkn hh.symm
        simp [setKey, getKey, hk, hkn, hpn, hnk]
    · by_cases hpn : p.1 = n
      · have hnk : ¬ n = k := fun hh => hk (hpn.trans hh)
        simp [setKey, getKey, hk, hpn, hnk]
      · simp [setKey, getKey, hk, hpn, ih]

/-- Keys of an association list are those whose lookup succeeds. -/
theorem mem_keys_iff_getKey {kvs : List (String × J)} {n : String} :
    n ∈ kvs.map Prod.fst ↔ (getKey kvs n).isSome = true := by
  induction kvs with
  | nil => simp [getKey]
  | cons p t ih =>
    by_cases h : p.1 = n
    · simp [getKey, h]
    · have h2 : ¬ n = p.1 := fun hh => h hh.symm
      simp [getKey, h, h2, ih]

/-- String projection of a mapped string array. -/
theorem jStrList_arr_map (l : List String) : jStrList (some (J.arr (l.map J.s))) = l := by
  induction l with
  | nil => rfl
  | cons a t ih => simpa [jStrList, List.filterMap_cons] using ih

/-! ### Claim C3 -/

/-- Claim C3: the assembler appends a required brace-wrapped uuid path
segment (with its path parameter object) exactly when the lower-cased
action name contains a verb token and a noun token from the fixed lists and
no exemption token; in particular getItem is parameterised while searchItem
and exportList are not. -/
theorem c3_uuid_heuristic :
    (∀ (module controller action : String),
      ((buildActionPath module controller action).2 = [uuidParam] ∧
        (buildActionPath module controller action).1 =
          "/api/" ++ pyLower module ++ "/" ++ pyLower controller ++ "/" ++ action ++ uuidSuffix)
      ↔ (targetVerbs.any (fun v => infixOfStr v (pyLower action)) = true ∧
          targetNouns.any (fun n => infixOfStr n (pyLower action)) = true ∧
          uuidExceptions.any (fun e => infixOfStr e (pyLower action)) = false)) ∧
    (buildActionPath "Core" "Service" "getItem").2 = [uuidParam] ∧
    (buildActionPath "Core" "Service" "searchItem").2 = [] ∧
    (buildActionPath "Core" "Service" "exportList").2 = [] := by
  refine ⟨?_, rfl, rfl, rfl⟩
  intro module controller action
  constructor
  · intro hc
    by_cases h : requiresUuid action = true
    · have hs := h
      simp only [requiresUuid, Bool.and_eq_true, Bool.not_eq_true'] at hs
      exact ⟨hs.1.1, hs.1.2, hs.2⟩
    · exfalso
      have h2 : (buildActionPath module controller action).2 = [] := by
        simp [buildActionPath, h]
      rw [h2] at hc
      exact absurd hc.1 (by simp)
  · intro hc
    have h : requiresUuid action = true := by
      simp [requiresUuid, hc.1, hc.2.1, hc.2.2]
    constructor
    · simp [buildActionPath, h]
    · simp [buildActionPath, h]

/-! ### Claim C5 -/

/-- Claim C5: the type-specific default converter is total: a boolean field
gets true exactly when the lower-cased default is 1, y, yes or true; an
integer or number field gets the parsed value when the string parses and
the raw string otherwise (abc stays abc); a string field gets the string
unchanged. -/
theorem c5_convert_default_total :
    (∀ s : String, convertDefaultValue s "boolean" =
        J.b (["1", "y", "yes", "true"].contains (pyLower s))) ∧
    (∀ s : String, convertDefaultValue s "integer" =
        (match pyInt? s.toList with | some n => J.i n | none => J.s s)) ∧
    (∀ s : String, convertDefaultValue s "number" =
        (match pyFloat? s.toList with | some q => J.f q | none => J.s s)) ∧
    (∀ s : String, convertDefaultValue s "string" = J.s s) ∧
    convertDefaultValue "1" "boolean" = J.b true ∧
    convertDefaultValue "abc" "integer" = J.s "abc" ∧
    convertDefaultValue "42" "integer" = J.i 42 :=
  ⟨fun _ => rfl, fun _ => rfl, fun _ => rfl, fun _ => rfl, rfl, rfl, rfl⟩

/-! ### Claim C6 -/

/-- Claim C6 counterexample: the name setStatus contains the write keyword
set, so the claim requires POST for it, but the code classifies it as GET
because the read keyword status is checked first. -/
theorem c6_counterexample_set_status_is_get :
    guessHttpMethod "setStatus" [] = "GET" ∧
    infixOfStr "set" (pyLower "setStatus") = true ∧
    ¬ guessHttpMethod "setStatus" [] = "POST" := by
  refine ⟨rfl, rfl, ?_⟩
  intro h
  exact absurd h (by decide)

/-- Claim C6 (amended): read keywords take precedence — the inferred verb is
GET exactly when the lower-cased name contains a read keyword, and POST in
every other case (whether or not a write keyword occurs). -/
theorem c6_verb_inference_amended :
    (∀ (name : String) (ps : List String),
      (guessHttpMethod name ps = "GET" ↔
        getPatterns.any (fun p => infixOfStr p (pyLower name)) = true) ∧
      (guessHttpMethod name ps = "POST" ↔
        getPatterns.any (fun p => infixOfStr p (pyLower name)) = false)) ∧
    guessHttpMethod "getItem" [] = "GET" ∧
    guessHttpMethod "reconfigure" [] = "POST" ∧
    guessHttpMethod "version" [] = "POST" := by
  refine ⟨?_, rfl, rfl, rfl⟩
  intro name ps
  by_cases h : getPatterns.any (fun p => infixOfStr p (pyLower name)) = true
  · have hg : guessHttpMethod name ps = "GET" := by simp [guessHttpMethod, h]
    refine ⟨⟨fun _ => h, fun _ => hg⟩, ?_, ?_⟩
    · intro hp; rw [hg] at hp; exact absurd hp (by decide)
    · intro hf; rw [h] at hf; exact absurd hf (by decide)
  · rw [Bool.not_eq_true] at h
    have hg : guessHttpMethod name ps = "POST" := by
      by_cases h2 : postPatterns.any (fun p => infixOfStr p (pyLower name)) = true <;>
        simp [guessHttpMethod, h, h2]
    refine ⟨⟨?_, ?_⟩, fun _ => h, fun _ => hg⟩
    · intro hgg; rw [hg] at hgg; exact absurd hgg (by decide)
    · intro ht; rw [ht] at h; exact absurd h (by decide)

end OpnSense

namespace OpnSense

/-! ### Response analyzer lemmas -/

/-- Unfolding of the variable tracer at positive fuel. -/
theorem traceVariableAux_succ (body : List Char) (fuel : Nat) (varName : List Char) :
    traceVariableAux body (fuel + 1) varName =
      (match (findAssigns body varName).getLast? with
       | none => none
       | some lastCap =>
         let assignment := pyStrip lastCap
         if assignment.head? = some '$' then
           match nextVarOf assignment with
           | some nv =>
             match traceVariableAux body fuel nv with
             | some traced => if traced.isEmpty then some assignment else some traced
             | none => some assignment
           | none => some assignment
         else some assignment) := rfl

/-- A base-method match on any (traced) return expression short-circuits the
analysis loop, whatever was already accumulated. -/
theorem analyzeLoop_findSome_base (resolveNext : Option (List Char → List Char → Option J))
    (body fc : List Char) :
    ∀ (rets : List (List Char)) (acc : List J) (s : J),
      (rets.map (fun r => traceStep body (pyStrip r))).findSome? matchBaseMethod = some s →
      analyzeLoop resolveNext body fc rets acc = some s := by
  intro rets
  induction rets with
  | nil =>
    intro acc s h
    simp [List.findSome?] at h
  | cons r rest ih =>
    intro acc s h
    rw [List.map_cons, List.findSome?_cons] at h
    cases hb : matchBaseMethod (traceStep body (pyStrip r)) with
    | some x =>
      rw [hb] at h
      simp only [Option.some.injEq] at h
      subst h
      simp [analyzeLoop, hb]
    | none =>
      rw [hb] at h
      cases hc : returnContribution resolveNext body fc (pyStrip r) (traceStep body (pyStrip r)) with
      | some sc =>
        simp only [analyzeLoop, hb, hc]
        exact ih _ s h
      | none =>
        simp only [analyzeLoop, hb, hc]
        exact ih _ s h

/-! ### Claim C10 -/

/-- Claim C10: when the traced expression of any return statement contains a
known base-method call, the analyzer returns the (first such) base method's
fixed schema as the whole result, discarding every schema inferred from
other returns; the union/intersection merge is never applied. -/
theorem c10_base_method_short_circuit :
    ∀ (fuel : Nat) (methodBody fileContent : List Char) (s : J),
      ((findReturns methodBody).map
          (fun r => traceStep methodBody (pyStrip r))).findSome? matchBaseMethod = some s →
      analyzeReturnsFuel fuel methodBody fileContent = some s := by
  intro fuel body fc s h
  have hne : ¬ findReturns body = [] := by
    intro he
    rw [he] at h
    simp [List.findSome?] at h
  have hne2 : (findReturns body).isEmpty = false := List.isEmpty_eq_false.mpr hne
  have key : ∀ rn, analyzeLoop rn body fc (findReturns body) [] = some s :=
    fun rn => analyzeLoop_findSome_base rn body fc _ [] _ h
  cases fuel with
  | zero => simp [analyzeReturnsFuel, hne2, key]
  | succ f => simp [analyzeReturnsFuel, hne2, key]

/-- Claim C10 witness: a body whose first return is an array literal and
whose second return calls searchBase is resolved to the searchBase schema. -/
theorem c10_base_method_short_circuit_witness :
    analyzeReturns c10WitnessBody c10WitnessBody = some searchBaseSchema :=
  c10_base_method_short_circuit 3 c10WitnessBody c10WitnessBody searchBaseSchema rfl

/-! ### Claim C2 -/

/-- Claim C2 counterexample: a valid PHP body whose only return statement is
a searchBase call, but whose comparison text redirects the variable tracer,
making the analyzer yield no schema instead of the pagination schema. -/
theorem c2_counterexample_trace_redirect :
    findReturns c2Body = [str "$this->searchBase($q)"] ∧
    analyzeReturns c2Body c2Body = none ∧
    ¬ analyzeReturns c2Body c2Body = some searchBaseSchema := by
  refine ⟨rfl, rfl, fun h => ?_⟩
  have e : analyzeReturns c2Body c2Body = none := rfl
  exact Option.noConfusion (e.symm.trans h)

/-- Claim C2 (amended): for a method body whose only extracted return
statement is a searchBase call, and for which variable tracing leaves the
stripped expression unchanged, the analyzer returns exactly the fixed
pagination schema, regardless of the rest of the body and at every depth. -/
theorem c2_searchbase_pagination :
    ∀ (fuel : Nat) (methodBody fileContent e rest : List Char),
      findReturns methodBody = [e] →
      pyStrip e = str "$this->searchBase(" ++ rest →
      traceStep methodBody (pyStrip e) = pyStrip e →
      analyzeReturnsFuel fuel methodBody fileContent = some searchBaseSchema := by
  intro fuel body fc e rest hret hstrip htrace
  have hbase : matchBaseMethod (pyStrip e) = some searchBaseSchema := by
    rw [hstrip]
    have hinf : infixOf (str "$this->searchBase(") (str "$this->searchBase(" ++ rest) = true :=
      infixOf_of_isPrefixOf (isPrefixOf_append_self _ _)
    simp only [matchBaseMethod, BASE_METHOD_SCHEMAS, List.findSome?_cons]
    rw [show ("$this->" ++ "searchBase" ++ "(").toList = str "$this->searchBase(" from rfl]
    rw [hinf]
    simp
  have hmap : ((findReturns body).map
      (fun r => traceStep body (pyStrip r))).findSome? matchBaseMethod = some searchBaseSchema := by
    rw [hret, List.map_cons, List.map_nil, List.findSome?_cons, htrace, hbase]
  have hne2 : (findReturns body).isEmpty = false := by
    rw [hret]; rfl
  have key : ∀ rn, analyzeLoop rn body fc (findReturns body) [] = some searchBaseSchema :=
    fun rn => analyzeLoop_findSome_base rn body fc _ [] _ hmap
  cases fuel with
  | zero => simp [analyzeReturnsFuel, hne2, key]
  | succ f => simp [analyzeReturnsFuel, hne2, key]

/-- Claim C2 witness: a body consisting of exactly one searchBase return
yields the pagination schema. -/
theorem c2_searchbase_pagination_witness :
    analyzeReturns c2WitnessBody c2WitnessBody = some searchBaseSchema :=
  c2_searchbase_pagination 3 c2WitnessBody c2WitnessBody
    (str "$this->searchBase($srt)") (str "$srt)") rfl rfl rfl

/-! ### Claim C8 -/

/-- Claim C8 counterexample: the tracer uses the last assignment in the
whole body, not the most recent assignment preceding the return statement:
here the assignment before the return is an array literal but the traced
replacement is the json_decode text assigned after the return, and the
analyzer infers the array schema accordingly. -/
theorem c8_counterexample_last_assignment :
    findReturns c8Body = [str "$r"] ∧
    traceStep c8Body (str "$r") = str "json_decode($x)" ∧
    ¬ traceStep c8Body (str "$r") = str "[\x22status\x22 => \x22ok\x22]" ∧
    analyzeReturns c8Body c8Body = some arrayItemsObjectSchema := by
  refine ⟨rfl, rfl, fun h => absurd h (by decide), rfl⟩

/-- Claim C8 (amended): a bare-variable return expression is replaced by the
stripped capture of the textually last assignment to that variable anywhere
in the body; variable-to-variable chains are followed the same way, the
recursion is bounded (fuel 5 from the default depth arguments, exhaustion
yielding no replacement), and a cyclic chain still terminates with a
bounded result. -/
theorem c8_trace_amended :
    (∀ (body expr lastCap E : List Char),
      expr.head? = some '$' →
      (findAssigns body (expr.takeWhile (fun c => !(isWS c)))).getLast? = some lastCap →
      pyStrip lastCap = E →
      ¬ E = [] →
      ¬ E.head? = some '$' →
      traceStep body expr = E) ∧
    (∀ (body expr lastCap v2 lastCap2 E : List Char),
      expr.head? = some '$' →
      (findAssigns body (expr.takeWhile (fun c => !(isWS c)))).getLast? = some lastCap →
      (pyStrip lastCap).head? = some '$' →
      nextVarOf (pyStrip lastCap) = some v2 →
      (findAssigns body v2).getLast? = some lastCap2 →
      pyStrip lastCap2 = E →
      ¬ E = [] →
      ¬ E.head? = some '$' →
      traceStep body expr = E) ∧
    traceVariableAux c8CycleBody 5 (str "$a") = some (str "$b") ∧
    (∀ (body varName : List Char), traceVariableAux body 0 varName = none) := by
  refine ⟨?_, ?_, rfl, fun _ _ => rfl⟩
  · intro body expr lastCap E hhead hlast hstrip hne hhd
    have htok : traceVariableAux body 5 (expr.takeWhile (fun c => !(isWS c))) = some E := by
      rw [show (5 : Nat) = 4 + 1 from rfl, traceVariableAux_succ, hlast]
      simp only [hstrip]
      rw [if_neg hhd]
    rw [traceStep, if_pos hhead]
    simp only [htok]
    rw [if_neg (fun hh => hne (List.isEmpty_iff.mp hh))]
  · intro body expr lastCap v2 lastCap2 E hhead hlast hd1 hnv hlast2 hstrip2 hne hhd
    have htok2 : traceVariableAux body 4 v2 = some E := by
      rw [show (4 : Nat) = 3 + 1 from rfl, traceVariableAux_succ, hlast2]
      simp only [hstrip2]
      rw [if_neg hhd]
    have htok : traceVariableAux body 5 (expr.takeWhile (fun c => !(isWS c))) = some E := by
      rw [show (5 : Nat) = 4 + 1 from rfl, traceVariableAux_succ, hlast]
      simp only []
      rw [if_pos hd1, hnv]
      simp only [htok2]
      rw [if_neg (fun hh => hne (List.isEmpty_iff.mp hh))]
    rw [traceStep, if_pos hhead]
    simp only [htok]
    rw [if_neg (fun hh => hne (List.isEmpty_iff.mp hh))]
  
/-- Claim C8 witness: a two-hop chain is traced through to the last
assignment of the chained variable. -/
theorem c8_trace_amended_witness :
    traceStep c8ChainBody (str "$a") = str "[\x22status\x22 => \x22ok\x22]" :=
  c8_trace_amended.2.1 c8ChainBody (str "$a") (str "$b") (str "$b")
    (str "[\x22status\x22 => \x22ok\x22]") (str "[\x22status\x22 => \x22ok\x22]")
    rfl rfl rfl rfl rfl rfl (by decide) (by decide)

end OpnSense

namespace OpnSense

/-! ### Merge lemmas and Claim C1 -/

/-- Merging one property into the accumulated dict adds exactly its key. -/
theorem getKey_mergePropsStep_isSome (mp : List (String × J)) (p : String × J) (n : String) :
    ((getKey (mergePropsStep mp p) n).isSome = true ↔ (n = p.1 ∨ (getKey mp n).isSome = true)) :=
  getKey_setKey_isSome mp p.1 n _

/-- The properties fold accumulates exactly the union of the keys. -/
theorem foldProps_keys : ∀ (pairs : List (String × J)) (mp : List (String × J)) (n : String),
    ((getKey (pairs.foldl mergePropsStep mp) n).isSome = true ↔
      ((getKey mp n).isSome = true ∨ n ∈ pairs.map Prod.fst)) := by
  intro pairs
  induction pairs with
  | nil => intro mp n; simp
  | cons p t ih =>
    intro mp n
    rw [List.foldl_cons, ih, getKey_mergePropsStep_isSome]
    simp only [List.map_cons, List.mem_cons]
    tauto

/-- Property keys after one merge step of an object schema. -/
theorem mergeStep_props (acc : List (String × J) × List String) (s : J)
    (h : jGet s "type" = some (J.s "object")) (n : String) :
    ((getKey (mergeStep acc s).1 n).isSome = true ↔
      ((getKey acc.1 n).isSome = true ∨ n ∈ jPropNames s)) := by
  have hb : (jGet s "type" == some (J.s "object")) = true := by rw [h]; rfl
  simp only [mergeStep, hb, Bool.not_true, Bool.false_eq_true, if_false]
  rw [foldProps_keys]
  simp [jPropNames]

/-- Required set after one merge step of an object schema. -/
theorem mergeStep_req (acc : List (String × J) × List String) (s : J)
    (h : jGet s "type" = some (J.s "object")) :
    (mergeStep acc s).2 =
      if acc.2.isEmpty then jReqSet s
      else acc.2.filter (fun n => (jReqSet s).contains n) := by
  have hb : (jGet s "type" == some (J.s "object")) = true := by rw [h]; rfl
  simp only [mergeStep, hb, Bool.not_true, Bool.false_eq_true, if_false]

/-- Required fold invariant: starting from a non-empty accumulated set
containing a witness required by every branch, the fold computes exactly
the intersection. -/
theorem mergeFold_req : ∀ (L : List J) (acc : List (String × J) × List String) (x : String),
    (∀ s ∈ L, jGet s "type" = some (J.s "object")) →
    (∀ s ∈ L, x ∈ jReqSet s) →
    x ∈ acc.2 →
    ∀ n, (n ∈ (L.foldl mergeStep acc).2 ↔ (n ∈ acc.2 ∧ ∀ s ∈ L, n ∈ jReqSet s)) := by
  intro L
  induction L with
  | nil => intro acc x _ _ hx n; simp
  | cons s t ih =>
    intro acc x hobj hreq hx n
    rw [List.foldl_cons]
    have hs := hobj s (List.mem_cons_self s t)
    have hxs := hreq s (List.mem_cons_self s t)
    have hne : ¬ acc.2.isEmpty = true := by
      intro hh
      rw [List.isEmpty_iff] at hh
      rw [hh] at hx
      exact List.not_mem_nil x hx
    have hstep2 : (mergeStep acc s).2 = acc.2.filter (fun m => (jReqSet s).contains m) := by
      rw [mergeStep_req acc s hs, if_neg hne]
    have hx2 : x ∈ (mergeStep acc s).2 := by
      rw [hstep2, List.mem_filter]
      exact ⟨hx, containsStr_iff.mpr hxs⟩
    rw [ih (mergeStep acc s) x (fun s2 h2 => hobj s2 (List.mem_cons_of_mem s h2))
      (fun s2 h2 => hreq s2 (List.mem_cons_of_mem s h2)) hx2 n, hstep2, List.mem_filter]
    constructor
    · rintro ⟨⟨hacc, hcon⟩, hall⟩
      refine ⟨hacc, ?_⟩
      intro s2 h2
      rcases List.mem_cons.mp h2 with rfl | h3
      · exact containsStr_iff.mp hcon
      · exact hall s2 h3
    · rintro ⟨hacc, hall⟩
      exact ⟨⟨hacc, containsStr_iff.mpr (hall s (List.mem_cons_self s t))⟩,
        fun s2 h2 => hall s2 (List.mem_cons_of_mem s h2)⟩

/-- Properties fold invariant: the accumulated keys are the union of the
branch property names. -/
theorem mergeFold_props : ∀ (L : List J) (acc : List (String × J) × List String),
    (∀ s ∈ L, jGet s "type" = some (J.s "object")) →
    ∀ n, ((getKey (L.foldl mergeStep acc).1 n).isSome = true ↔
      ((getKey acc.1 n).isSome = true ∨ ∃ s ∈ L, n ∈ jPropNames s)) := by
  intro L
  induction L with
  | nil => intro acc _ n; simp
  | cons s t ih =>
    intro acc hobj n
    rw [List.foldl_cons,
      ih (mergeStep acc s) (fun s2 h2 => hobj s2 (List.mem_cons_of_mem s h2)) n,
      mergeStep_props acc s (hobj s (List.mem_cons_self s t)) n]
    simp only [List.exists_mem_cons_iff]
    tauto

/-- Claim C1 counterexample: merging a branch with no required list into a
branch requiring status yields required = [status], whereas the
intersection of the branches' required sets is empty — the merge replaces
an empty accumulated intersection instead of keeping it. -/
theorem c1_counterexample_required_not_intersection :
    jReqSet c1SchemaA = [] ∧
    jReqSet c1SchemaB = ["status"] ∧
    jReqSet (mergeSchemas [c1SchemaA, c1SchemaB]) = ["status"] ∧
    ¬ jReqSet (mergeSchemas [c1SchemaA, c1SchemaB]) =
        (jReqSet c1SchemaA).filter (fun n => (jReqSet c1SchemaB).contains n) := by
  refine ⟨rfl, rfl, rfl, fun h => absurd h (by decide)⟩

/-- Claim C1 (amended): for a merge of two or more object schemas whose
required sets have a common element, the merged property set is the union
of the branch properties and the merged required set is exactly the
intersection of the branch required sets.  (When the running intersection
becomes empty the code instead restarts from the next branch's required
set, which is what the counterexample exhibits.) -/
theorem c1_merge_union_intersection :
    ∀ (L : List J) (x : String),
      2 ≤ L.length →
      (∀ s ∈ L, jGet s "type" = some (J.s "object")) →
      (∀ s ∈ L, x ∈ jReqSet s) →
      (∀ n, (n ∈ jReqSet (mergeSchemas L) ↔ ∀ s ∈ L, n ∈ jReqSet s)) ∧
      (∀ n, (n ∈ jPropNames (mergeSchemas L) ↔ ∃ s ∈ L, n ∈ jPropNames s)) := by
  intro L x hlen hobj hreq
  obtain ⟨a, b, t, rfl⟩ : ∃ a b t, L = a :: b :: t := by
    cases L with
    | nil => exact absurd hlen (by decide)
    | cons a l1 =>
      cases l1 with
      | nil => exact absurd hlen (by simp)
      | cons b t => exact ⟨a, b, t, rfl⟩
  have hobja := hobj a (List.mem_cons_self a (b :: t))
  have hfold1 : (a :: b :: t).foldl mergeStep ([], []) =
      (b :: t).foldl mergeStep (mergeStep ([], []) a) := List.foldl_cons _ _
  have hstep_a_req : (mergeStep (([], []) : List (String × J) × List String) a).2 = jReqSet a := by
    rw [mergeStep_req _ a hobja]
    rfl
  have hx1 : x ∈ (mergeStep (([], []) : List (String × J) × List String) a).2 := by
    rw [hstep_a_req]
    exact hreq a (List.mem_cons_self a (b :: t))
  have hreqF : ∀ n, (n ∈ ((a :: b :: t).foldl mergeStep ([], [])).2 ↔
      ∀ s ∈ a :: b :: t, n ∈ jReqSet s) := by
    intro n
    rw [hfold1,
      mergeFold_req (b :: t) (mergeStep ([], []) a) x
        (fun s2 h2 => hobj s2 (List.mem_cons_of_mem a h2))
        (fun s2 h2 => hreq s2 (List.mem_cons_of_mem a h2)) hx1 n,
      hstep_a_req]
    constructor
    · rintro ⟨hna, hnt⟩ s2 h2
      rcases List.mem_cons.mp h2 with rfl | h3
      · exact hna
      · exact hnt s2 h3
    · intro hall
      exact ⟨hall a (List.mem_cons_self a (b :: t)),
        fun s2 h2 => hall s2 (List.mem_cons_of_mem a h2)⟩
  have hxF : x ∈ ((a :: b :: t).foldl mergeStep ([], [])).2 := (hreqF x).mpr hreq
  have hFne : (((a :: b :: t).foldl mergeStep ([], [])).2).isEmpty = false := by
    rw [List.isEmpty_eq_false]
    intro hh
    rw [hh] at hxF
    exact List.not_mem_nil x hxF
  have hms : mergeSchemas (a :: b :: t) =
      J.obj [("type", J.s "object"),
        ("properties", J.obj ((a :: b :: t).foldl mergeStep ([], [])).1),
        ("required", J.arr ((pySortedSet (((a :: b :: t).foldl mergeStep ([], [])).2)).map J.s))] := by
    simp [mergeSchemas, hFne]
    have hFne2 : ¬ ((a :: b :: t).foldl mergeStep ([], [])).2 = [] :=
      List.isEmpty_eq_false.mp hFne
    rw [List.foldl_cons, List.foldl_cons] at hFne2
    exact hFne2
  constructor
  · intro n
    have hget : jGet (mergeSchemas (a :: b :: t)) "required" =
        some (J.arr ((pySortedSet (((a :: b :: t).foldl mergeStep ([], [])).2)).map J.s)) := by
      rw [hms]
      rfl
    have hclean : jReqSet (mergeSchemas (a :: b :: t)) =
        pyDedup (pySortedSet (((a :: b :: t).foldl mergeStep ([], [])).2)) := by
      unfold jReqSet
      rw [hget, jStrList_arr_map]
    rw [hclean, mem_pyDedup, mem_pySortedSet]
    exact hreqF n
  · intro n
    have hgetp : jGet (mergeSchemas (a :: b :: t)) "properties" =
        some (J.obj (((a :: b :: t).foldl mergeStep ([], [])).1)) := by
      rw [hms]
      rfl
    have hclean : jPropNames (mergeSchemas (a :: b :: t)) =
        (((a :: b :: t).foldl mergeStep ([], [])).1).map Prod.fst := by
      unfold jPropNames
      rw [hgetp]
      rfl
    rw [hclean, mem_keys_iff_getKey,
      mergeFold_props (a :: b :: t) ([], []) hobj n]
    simp [getKey]

/-- Claim C1 witness: the intersection law instance — merging a branch
requiring status with a branch requiring status and result yields a merge
requiring status but not result. -/
theorem c1_merge_union_intersection_witness :
    "status" ∈ jReqSet (mergeSchemas [c1SchemaB, c1SchemaD]) ∧
    ¬ "result" ∈ jReqSet (mergeSchemas [c1SchemaB, c1SchemaD]) := by
  have hobj : ∀ s ∈ [c1SchemaB, c1SchemaD], jGet s "type" = some (J.s "object") := by
    intro s hs
    rcases List.mem_cons.mp hs with rfl | hs2
    · rfl
    · rcases List.mem_cons.mp hs2 with rfl | hs3
      · rfl
      · exact absurd hs3 (List.not_mem_nil s)
  have hreq : ∀ s ∈ [c1SchemaB, c1SchemaD], "status" ∈ jReqSet s := by
    intro s hs
    rcases List.mem_cons.mp hs with rfl | hs2
    · decide
    · rcases List.mem_cons.mp hs2 with rfl | hs3
      · decide
      · exact absurd hs3 (List.not_mem_nil s)
  have hmain := c1_merge_union_intersection [c1SchemaB, c1SchemaD] "status" (by decide) hobj hreq
  constructor
  · exact (hmain.1 "status").mpr hreq
  · intro hmem
    have h2 := (hmain.1 "result").mp hmem c1SchemaB (List.mem_cons_self _ _)
    exact absurd h2 (by decide)

end OpnSense

namespace OpnSense

/-! ### Version ordering lemmas and Claim C7 -/

/-- Version-key comparison is reflexive. -/
theorem keyLE_refl : ∀ (a : List Int), keyLE a a = true := by
  intro a
  induction a with
  | nil => rfl
  | cons x t ih => simp [keyLE, ih]

/-- Version-key comparison is total. -/
theorem keyLE_total : ∀ (a b : List Int), keyLE a b = true ∨ keyLE b a = true := by
  intro a
  induction a with
  | nil => intro b; left; rfl
  | cons x t ih =>
    intro b
    cases b with
    | nil => right; rfl
    | cons y u =>
      rcases lt_trichotomy x y with h | h | h
      · left; simp [keyLE, h]
      · subst h
        rcases ih u with h2 | h2
        · left; simp [keyLE, h2]
        · right; simp [keyLE, h2]
      · right; simp [keyLE, h]

/-- Version-key comparison is transitive. -/
theorem keyLE_trans : ∀ (a b c : List Int),
    keyLE a b = true → keyLE b c = true → keyLE a c = true := by
  intro a
  induction a with
  | nil => intro b c _ _; rfl
  | cons x t ih =>
    intro b c hab hbc
    cases b with
    | nil => simp [keyLE] at hab
    | cons y u =>
      cases c with
      | nil => simp [keyLE] at hbc
      | cons z v =>
        by_cases hxy : x < y
        · rcases lt_trichotomy y z with h | h | h
          · simp [keyLE, lt_trans hxy h]
          · subst h; simp [keyLE, hxy]
          · exfalso
            have hnyz : ¬ y < z := by omega
            simp [keyLE, hnyz, h] at hbc
        · rcases lt_trichotomy x y with h | h | h
          · exact absurd h hxy
          · subst h
            by_cases hxz : x < z
            · simp [keyLE, hxz]
            · rcases lt_trichotomy x z with h2 | h2 | h2
              · exact absurd h2 hxz
              · subst h2
                simp [keyLE, lt_irrefl] at hab hbc ⊢
                exact ih u v hab hbc
              · exfalso; simp [keyLE, hxz, h2] at hbc
          · exfalso; simp [keyLE, hxy, h] at hab

/-- The last element of a version-sorted list is a maximum. -/
theorem versionLE_getLast_max : ∀ (l : List String), List.Sorted versionLE l →
    ∀ b, l.getLast? = some b → ∀ v ∈ l, versionLE v b := by
  intro l
  induction l with
  | nil => intro _ b hb; simp at hb
  | cons a t ih =>
    intro hs b hb v hv
    rcases List.sorted_cons.mp hs with ⟨ha, hst⟩
    cases t with
    | nil =>
      simp at hb
      subst hb
      rcases List.mem_singleton.mp hv with rfl
      exact keyLE_refl _
    | cons c u =>
      have hb2 : (c :: u).getLast? = some b := by
        rw [List.getLast?_cons_cons] at hb
        exact hb
      rcases List.mem_cons.mp hv with rfl | hv2
      · have hbmem : b ∈ c :: u := by
          rcases List.getLast?_eq_some_iff.mp hb2 with ⟨ys, hys⟩
          rw [hys]
          simp
        exact ha b hbmem
      · exact ih hst b hb2 v hv2

/-- Controlled unfolding of `findBestMatchingSpec` when no exact match
exists, the requested version has at least two dotted components, and every
directory entry has a parseable version key. -/
theorem findBestMatchingSpec_no_exact (dir : List String) (version : String)
    (p0 p1 : List Char) (ps : List (List Char))
    (hnot : ¬ version ∈ dir)
    (hsplit : splitOnChar '.' version.toList = p0 :: p1 :: ps)
    (hparse : dir.all (fun v => (pyVersionKey? v).isSome) = true) :
    findBestMatchingSpec dir version =
      (if (matchingOf dir version).isEmpty then
        SpecResult.notFound version (majorMinorOf version) (sortVersions dir)
      else
        match (sortVersions (matchingOf dir version)).getLast? with
        | some best => SpecResult.found best
        | none => SpecResult.keyError) := by
  rw [findBestMatchingSpec.eq_def, if_neg (fun hh => hnot (containsStr_iff.mp hh))]
  have hmm : majorMinorOf version = String.mk p0 ++ "." ++ String.mk p1 := by
    unfold majorMinorOf
    rw [hsplit]
  simp only [listAvailableSpecs, hparse, eq_self_iff_true, if_true, if_pos, hsplit]
  rw [matchingOf.eq_def, hmm]

/-- Claim C7 counterexample: a requested version with a single dotted
component and no exact match raises the invalid-format error, whose message
does not enumerate the available versions (it is not the enumerating
not-found error the claim requires). -/
theorem c7_counterexample_single_component :
    findBestMatchingSpec ["23.1"] "24" = SpecResult.invalidFormat "24" ∧
    SpecResult.isNotFound (findBestMatchingSpec ["23.1"] "24") = false :=
  ⟨rfl, rfl⟩

/-- Claim C7 (amended): resolution returns the exact version when present;
on a miss over a directory of parseable versions, a request with at least
two dotted components resolves to a highest available version sharing the
requested major.minor, raising the not-found error carrying the full sorted
available list when none shares it, while a request with fewer than two
components raises the invalid-format error; on a miss over a directory with
an unparseable version key, the swallowed exact-match error interpolates
the available listing first, so the unparsed key raises before any of the
above (modelled as `keyError`), whatever the requested format. -/
theorem c7_version_resolution_amended :
    (∀ (dir : List String) (version : String), version ∈ dir →
      findBestMatchingSpec dir version = SpecResult.found version) ∧
    (∀ (dir : List String) (version : String) (p0 p1 : List Char) (ps : List (List Char)),
      ¬ version ∈ dir →
      splitOnChar '.' version.toList = p0 :: p1 :: ps →
      (∀ v ∈ dir, (pyVersionKey? v).isSome = true) →
      ¬ matchingOf dir version = [] →
      ∃ best, findBestMatchingSpec dir version = SpecResult.found best ∧
        best ∈ matchingOf dir version ∧
        ∀ v ∈ matchingOf dir version, versionLE v best) ∧
    (∀ (dir : List String) (version : String) (p0 p1 : List Char) (ps : List (List Char)),
      ¬ version ∈ dir →
      splitOnChar '.' version.toList = p0 :: p1 :: ps →
      (∀ v ∈ dir, (pyVersionKey? v).isSome = true) →
      matchingOf dir version = [] →
      findBestMatchingSpec dir version =
        SpecResult.notFound version (majorMinorOf version) (sortVersions dir)) ∧
    (∀ (dir : List String) (version : String) (p0 : List Char),
      ¬ version ∈ dir →
      splitOnChar '.' version.toList = [p0] →
      (∀ v ∈ dir, (pyVersionKey? v).isSome = true) →
      findBestMatchingSpec dir version = SpecResult.invalidFormat version) ∧
    (∀ (dir : List String) (version : String),
      ¬ version ∈ dir →
      dir.all (fun v => (pyVersionKey? v).isSome) = false →
      findBestMatchingSpec dir version = SpecResult.keyError) := by
  have hcontains : ∀ (dir : List String) (version : String), ¬ version ∈ dir →
      (dir.contains version = true) = False := by
    intro dir version hnot
    simp only [eq_iff_iff, iff_false]
    intro hh
    exact hnot (containsStr_iff.mp hh)
  have hall : ∀ (dir : List String), (∀ v ∈ dir, (pyVersionKey? v).isSome = true) →
      dir.all (fun v => (pyVersionKey? v).isSome) = true := by
    intro dir hparse
    rw [List.all_eq_true]
    exact hparse
  refine ⟨?_, ?_, ?_, ?_, ?_⟩
  · intro dir version hmem
    rw [findBestMatchingSpec.eq_def, if_pos (containsStr_iff.mpr hmem)]
  · intro dir version p0 p1 ps hnot hsplit hparse hmatch
    have hne : ¬ (matchingOf dir version).isEmpty = true := by
      intro hh
      exact hmatch (List.isEmpty_iff.mp hh)
    have hlastNe : ¬ sortVersions (matchingOf dir version) = [] := by
      intro hh
      have hperm := List.perm_insertionSort versionLE (matchingOf dir version)
      rw [sortVersions] at hh
      rw [hh] at hperm
      exact hmatch hperm.nil_eq.symm
    cases hlast : (sortVersions (matchingOf dir version)).getLast? with
    | none =>
      exact absurd (List.getLast?_eq_none_iff.mp hlast) hlastNe
    | some best =>
      refine ⟨best, ?_, ?_, ?_⟩
      · rw [findBestMatchingSpec_no_exact dir version p0 p1 ps hnot hsplit (hall dir hparse),
          if_neg hne, hlast]
      · have hmem : best ∈ sortVersions (matchingOf dir version) := by
          rcases List.getLast?_eq_some_iff.mp hlast with ⟨ys, hys⟩
          rw [hys]
          simp
        exact (List.perm_insertionSort versionLE (matchingOf dir version)).mem_iff.mp hmem
      · haveI : IsTotal String versionLE := ⟨fun a b => keyLE_total _ _⟩
        haveI : IsTrans String versionLE := ⟨fun a b c => keyLE_trans _ _ _⟩
        have hsorted : List.Sorted versionLE (sortVersions (matchingOf dir version)) :=
          List.sorted_insertionSort versionLE (matchingOf dir version)
        intro v hv
        have hv2 : v ∈ sortVersions (matchingOf dir version) :=
          (List.perm_insertionSort versionLE (matchingOf dir version)).mem_iff.mpr hv
        exact versionLE_getLast_max _ hsorted best hlast v hv2
  · intro dir version p0 p1 ps hnot hsplit hparse hmatch
    have he : (matchingOf dir version).isEmpty = true := by
      rw [hmatch]
      rfl
    rw [findBestMatchingSpec_no_exact dir version p0 p1 ps hnot hsplit (hall dir hparse),
      if_pos he]
  · intro dir version p0 hnot hsplit hparse
    rw [findBestMatchingSpec.eq_def]
    rw [if_neg (fun hh => (hcontains dir version hnot).mp hh)]
    simp only [listAvailableSpecs, hall dir hparse, eq_self_iff_true, if_true, if_pos, hsplit]
  · intro dir version hnot hallF
    rw [findBestMatchingSpec.eq_def]
    rw [if_neg (fun hh => (hcontains dir version hnot).mp hh)]
    simp only [listAvailableSpecs, hallF, Bool.false_eq_true, if_false]

/-- Claim C7 witness: resolving 24.7.999 over 24.7.1 and 24.7.3 returns the
24.7.3 artifact; resolving 99.99.99 raises the not-found error carrying the
full available list; resolving the single-component 24 over the parseable
directory raises the invalid-format error, but over a directory holding the
unparseable key dev it raises the key-parse error instead. -/
theorem c7_version_resolution_amended_witness :
    findBestMatchingSpec ["24.7.1", "24.7.3"] "24.7.999" = SpecResult.found "24.7.3" ∧
    findBestMatchingSpec ["24.7.1", "24.7.3"] "99.99.99" =
      SpecResult.notFound "99.99.99" "99.99" ["24.7.1", "24.7.3"] ∧
    findBestMatchingSpec ["24.7.1", "24.7.3"] "24" = SpecResult.invalidFormat "24" ∧
    findBestMatchingSpec ["dev"] "24" = SpecResult.keyError := by
  refine ⟨rfl, ?_, ?_, ?_⟩
  · exact c7_version_resolution_amended.2.2.1 ["24.7.1", "24.7.3"] "99.99.99"
      (str "99") (str "99") [str "99"] (by decide) rfl (by decide) rfl
  · exact c7_version_resolution_amended.2.2.2.1 ["24.7.1", "24.7.3"] "24"
      (str "24") (by decide) rfl (by decide)
  · exact c7_version_resolution_amended.2.2.2.2 ["dev"] "24" (by decide) rfl

/-- Claim C9 counterexample: a document whose paths map contains the
("/p", get) operation, for which list_endpoints nevertheless returns no
triple at all, because the operation declares neither summary nor
description. -/
theorem c9_counterexample_undocumented_operation :
    listEndpoints c9CounterSpec = some [] ∧
    jGet c9CounterSpec "paths" = some (J.obj [("/p", J.obj [("get", J.obj [])])]) :=
  ⟨rfl, rfl⟩

/-- Dict lookup along an embedding map over a table with distinct keys
finds the embedded value of each entry. -/
theorem getKey_map_of_nodup {α : Type} (l : List (String × α)) (g : String × α → J)
    (hnd : (l.map Prod.fst).Nodup) :
    ∀ x ∈ l, getKey (l.map (fun y => (y.1, g y))) x.1 = some (g x) := by
  induction l with
  | nil => intro x hx; exact absurd hx (List.not_mem_nil x)
  | cons h t ih =>
    intro x hx
    simp only [List.map_cons, List.nodup_cons] at hnd
    rcases List.mem_cons.mp hx with rfl | hx2
    · simp [getKey]
    · have hne : ¬ h.1 = x.1 := by
        intro he
        have hm : x.1 ∈ t.map Prod.fst := List.mem_map_of_mem Prod.fst hx2
        rw [← he] at hm
        exact hnd.1 hm
      simp only [List.map_cons, getKey, if_neg hne]
      exact ih hnd.2 x hx2

/-- The operation loop appends, in order, one triple per operation that
declares a summary or a string description, provided every method key
refetches to its own embedded operation dict. -/
theorem listEndpointsOpsLoop_eq (pathKey : String) (methods : List (String × J)) :
    ∀ (mos : List (String × List (String × J))),
      (∀ mo ∈ mos, getKey methods mo.1 = some (J.obj mo.2)) →
      (∀ mo ∈ mos, descOkay mo.2 = true) →
      ∀ acc,
      listEndpointsOpsLoop pathKey methods (mos.map (fun mo => (mo.1, J.obj mo.2))) acc =
        some (acc ++ mos.filterMap (fun mo =>
          match getKey mo.2 "summary" with
          | some v => some (pathKey, pyUpper mo.1, v)
          | none =>
            match getKey mo.2 "description" with
            | some (J.s d) => some (pathKey, pyUpper mo.1, J.s (firstSentence d))
            | _ => none)) := by
  intro mos
  induction mos with
  | nil => intro _ _ acc; simp [listEndpointsOpsLoop]
  | cons mo t ih =>
    intro hget hdesc acc
    have hg := hget mo (List.mem_cons_self mo t)
    have hd := hdesc mo (List.mem_cons_self mo t)
    have hgt := fun mo2 h2 => hget mo2 (List.mem_cons_of_mem mo h2)
    have hdt := fun mo2 h2 => hdesc mo2 (List.mem_cons_of_mem mo h2)
    simp only [List.map_cons, listEndpointsOpsLoop, hg, Option.getD_some, List.filterMap_cons]
    cases hsum : getKey mo.2 "summary" with
    | some v =>
      have hk : hasKey mo.2 "summary" = true := by
        rw [hasKey, hsum]
        rfl
      rw [hk, if_pos rfl]
      simp only [Option.getD_some]
      rw [ih hgt hdt (acc ++ [(pathKey, pyUpper mo.1, v)])]
      simp
    | none =>
      have hk : hasKey mo.2 "summary" = false := by
        rw [hasKey, hsum]
        rfl
      rw [hk, if_neg (by simp)]
      cases hdescr : getKey mo.2 "description" with
      | some dv =>
        have hk2 : hasKey mo.2 "description" = true := by
          rw [hasKey, hdescr]
          rfl
        rw [hk2, if_pos rfl]
        simp only [Option.getD_some]
        cases dv with
        | s d =>
          simp only []
          rw [ih hgt hdt (acc ++ [(pathKey, pyUpper mo.1, J.s (firstSentence d))])]
          simp
        | obj kvs =>
          exfalso
          rw [descOkay, hsum, hdescr] at hd
          exact Bool.false_ne_true hd
        | arr xs =>
          exfalso
          rw [descOkay, hsum, hdescr] at hd
          exact Bool.false_ne_true hd
        | b bb =>
          exfalso
          rw [descOkay, hsum, hdescr] at hd
          exact Bool.false_ne_true hd
        | i ii =>
          exfalso
          rw [descOkay, hsum, hdescr] at hd
          exact Bool.false_ne_true hd
        | f ff =>
          exfalso
          rw [descOkay, hsum, hdescr] at hd
          exact Bool.false_ne_true hd
        | null =>
          exfalso
          rw [descOkay, hsum, hdescr] at hd
          exact absurd hd (by decide)
      | none =>
        have hk2 : hasKey mo.2 "description" = false := by
          rw [hasKey, hdescr]
          rfl
        rw [hk2, if_neg (by simp), ih hgt hdt acc]

/-- The path loop appends the specified listing of a structured paths
table, provided every path key refetches to its own embedded path item. -/
theorem listEndpointsPathsLoop_eq (paths : List (String × J)) :
    ∀ (pd : List (String × List (String × List (String × J)))),
      (∀ pm ∈ pd, getKey paths pm.1 =
        some (J.obj (pm.2.map (fun mo => (mo.1, J.obj mo.2))))) →
      (∀ pm ∈ pd, (pm.2.map Prod.fst).Nodup) →
      (∀ pm ∈ pd, ∀ mo ∈ pm.2, descOkay mo.2 = true) →
      ∀ acc,
      listEndpointsPathsLoop paths
          (pd.map (fun pm => (pm.1, J.obj (pm.2.map (fun mo => (mo.1, J.obj mo.2)))))) acc =
        some (acc ++ listEndpointsSpecFn pd) := by
  intro pd
  induction pd with
  | nil => intro _ _ _ acc; simp [listEndpointsPathsLoop, listEndpointsSpecFn]
  | cons pm t ih =>
    intro hget hnd hdesc acc
    have hg := hget pm (List.mem_cons_self pm t)
    have hinner := listEndpointsOpsLoop_eq pm.1 (pm.2.map (fun mo => (mo.1, J.obj mo.2))) pm.2
      (getKey_map_of_nodup pm.2 (fun mo => J.obj mo.2) (hnd pm (List.mem_cons_self pm t)))
      (hdesc pm (List.mem_cons_self pm t)) acc
    simp only [List.map_cons, listEndpointsPathsLoop, hg, Option.getD_some, hinner]
    rw [ih (fun pm2 h2 => hget pm2 (List.mem_cons_of_mem pm h2))
      (fun pm2 h2 => hnd pm2 (List.mem_cons_of_mem pm h2))
      (fun pm2 h2 => hdesc pm2 (List.mem_cons_of_mem pm h2))]
    simp only [listEndpointsSpecFn, List.flatMap_cons, List.append_assoc, Option.some.injEq]

/-- Claim C9 (amended): for every loaded document embedded from a
structured paths table with distinct path keys and distinct method keys per
path, PROVIDED every operation declares a summary or a string description,
list_endpoints returns exactly one (path, verb, summary) triple per such
operation, the summary falling back to the first sentence of the
description; operations declaring neither are silently omitted from the
listing (and a non-string description raises instead). -/
theorem c9_endpoint_listing_amended :
    ∀ (pd : List (String × List (String × List (String × J)))),
      (pd.map Prod.fst).Nodup →
      (∀ pm ∈ pd, (pm.2.map Prod.fst).Nodup) →
      (∀ pm ∈ pd, ∀ mo ∈ pm.2, descOkay mo.2 = true) →
      listEndpoints (embedPathsDoc pd) = some (listEndpointsSpecFn pd) := by
  intro pd hnd hndm hdesc
  have hget := getKey_map_of_nodup pd
    (fun pm => J.obj (pm.2.map (fun mo => (mo.1, J.obj mo.2)))) hnd
  rw [listEndpoints, embedPathsDoc]
  simp only [jGet, getKey, if_pos rfl]
  exact listEndpointsPathsLoop_eq _ pd hget hndm hdesc []

/-- Claim C9 witness: the amended listing law at a concrete document with
one description-documented and one summary-documented operation. -/
theorem c9_endpoint_listing_amended_witness :
    listEndpoints (embedPathsDoc c9WitnessPd) =
      some [("/p", "GET", J.s "First sentence"), ("/p", "POST", J.s "Sum")] := by
  have hnd : (c9WitnessPd.map Prod.fst).Nodup := by decide
  have hm : ∀ pm ∈ c9WitnessPd, (pm.2.map Prod.fst).Nodup := by
    intro pm hpm
    rcases List.mem_cons.mp hpm with rfl | h
    · decide
    · exact absurd h (List.not_mem_nil pm)
  have hdo : ∀ pm ∈ c9WitnessPd, ∀ mo ∈ pm.2, descOkay mo.2 = true := by
    intro pm hpm
    rcases List.mem_cons.mp hpm with rfl | h
    · intro mo hmo
      rcases List.mem_cons.mp hmo with rfl | h2
      · rfl
      · rcases List.mem_cons.mp h2 with rfl | h3
        · rfl
        · exact absurd h3 (List.not_mem_nil mo)
    · exact absurd h (List.not_mem_nil pm)
  rw [c9_endpoint_listing_amended c9WitnessPd hnd hm hdo]
  rfl

/-- Claim C4 counterexample: the OpenAPI generator emits, for an option
field declaring options a and b with declared default c, an enum of exactly
[a, b] — the default is dropped, not appended. -/
theorem c4_counterexample_default_dropped_from_enum :
    parseModelNodes (fun _ => []) c4Parent = [("field1", c4EmittedProp)] ∧
    ((c4Parent.findChild "field1").bind (fun e => e.findChild "Default")).bind XmlEl.text =
      some "c" ∧
    jStrList (jGet c4EmittedProp "enum") = ["a", "b"] ∧
    ¬ "c" ∈ jStrList (jGet c4EmittedProp "enum") := by
  refine ⟨?_, rfl, rfl, by decide⟩
  simp [parseModelNodes, parseNodesAcc, parseNodeStep, c4Parent, c4EmittedProp,
    XmlEl.children, XmlEl.tag, XmlEl.attrib, XmlEl.findChild, XmlEl.text, lookupStr,
    lstripRel, lookupJ, TYPE_MAP, setKey]

/-- Claim C4 (amended): the enum-completeness invariant holds in the model
parser — for every option field with a declared default, the emitted enum
(under items for Multiple fields) contains the default even when it is
absent from the declared options — but NOT in the OpenAPI generator, whose
option-field properties carry exactly the declared option tags as enum and
never consult the Default node. -/
theorem c4_enum_default_amended :
    (∀ (f : ModelField) (d : String), ¬ f.options = [] → f.default = some d →
      d ∈ jStrList (jGet (itemsOrSelf (toJsonSchemaProp f)) "enum")) ∧
    (∀ (re : String → List String) (nm : String) (opts : List XmlEl) (dflt : String),
      ¬ opts = [] →
      parseModelNodes re (XmlEl.mk "items" [] none
        [XmlEl.mk nm [("type", "OptionField")] none
          [XmlEl.mk "OptionValues" [] none opts, XmlEl.mk "Default" [] (some dflt) []]]) =
        [(nm, J.obj [("type", J.s "string"), ("description", J.s "Dropdown selection"),
          ("enum", J.arr (opts.map (fun o => J.s o.tag)))])]) := by
  constructor
  · intro f d hopts hdflt
    have hne : f.options.isEmpty = false := by
      cases ho : f.options with
      | nil => exact absurd ho hopts
      | cons a t => rfl
    simp only [toJsonSchemaProp, hne, hdflt, Bool.not_false, if_true]
    cases hcd : (f.options.map (fun o => o.1)).contains d with
    | true =>
      have hmem : d ∈ f.options.map (fun o => o.1) := containsStr_iff.mp hcd
      have hmem2 : J.s d ∈ f.options.map (J.s ∘ fun o => o.1) := by
        rw [← List.map_map]
        exact List.mem_map_of_mem J.s hmem
      cases hm : f.multiple with
      | true =>
        simp only [hcd, Bool.not_true, Bool.false_eq_true, if_false, if_true,
          itemsOrSelf, jGet, setKey, getKey]
        simp [getKey, jStrList, List.mem_filterMap]
        rcases List.mem_map.mp hmem with ⟨o, ho, heq⟩
        subst heq
        exact ⟨o.2, by simpa using ho⟩
      | false =>
        simp only [hcd, Bool.not_true, Bool.false_eq_true, if_false,
          itemsOrSelf, jGet, setKey, getKey]
        simp [getKey, jStrList, List.mem_filterMap]
        rcases List.mem_map.mp hmem with ⟨o, ho, heq⟩
        subst heq
        exact ⟨o.2, by simpa using ho⟩
    | false =>
      have hmem2 : J.s d ∈ f.options.map (J.s ∘ fun o => o.1) ++ [J.s d] :=
        List.mem_append_right _ (List.mem_singleton.mpr rfl)
      cases hm : f.multiple with
      | true =>
        simp only [hcd, Bool.not_false, if_true,
          itemsOrSelf, jGet, setKey, getKey]
        simp [getKey, jStrList, List.mem_filterMap]
      | false =>
        simp only [hcd, Bool.not_false, if_true,
          itemsOrSelf, jGet, setKey, getKey]
        simp [getKey, jStrList, List.mem_filterMap]
  · intro re nm opts dflt hopts
    cases opts with
    | nil => exact absurd rfl hopts
    | cons a t =>
      have hclean : lstripRel "OptionField" = "OptionField" := rfl
      simp [parseModelNodes, parseNodesAcc, parseNodeStep,
        XmlEl.children, XmlEl.tag, XmlEl.attrib, XmlEl.findChild, XmlEl.text, lookupStr,
        hclean, lookupJ, TYPE_MAP, setKey, Function.comp]


/-- Claim C4 witness: the model parser appends the out-of-options default c
to the enum of a field declaring options a and b, while the generator
emits exactly the declared option tags for an option field with default
c. -/
theorem c4_enum_default_amended_witness :
    "c" ∈ jStrList (jGet (itemsOrSelf (toJsonSchemaProp c4Field)) "enum") ∧
    parseModelNodes (fun _ => []) (XmlEl.mk "items" [] none
      [XmlEl.mk "f1" [("type", "OptionField")] none
        [XmlEl.mk "OptionValues" [] none [XmlEl.mk "a" [] none []],
         XmlEl.mk "Default" [] (some "c") []]]) =
      [("f1", J.obj [("type", J.s "string"), ("description", J.s "Dropdown selection"),
        ("enum", J.arr ([XmlEl.mk "a" [] none []].map (fun o => J.s o.tag)))])] := by
  constructor
  · exact c4_enum_default_amended.1 c4Field "c" (by decide) rfl
  · exact c4_enum_default_amended.2 (fun _ => []) "f1" [XmlEl.mk "a" [] none []] "c"
      (List.cons_ne_nil _ _)

end OpnSense
